import Mathlib

/-!
Verification of the incremental email-reconciliation pipeline of the
Automated-AI-Opportunity-Agent repository (`main.py`).

The embedding below is a shallow translation of the Python source.  External
collaborators (Gmail, the Gemini model, the Google Sheet transport, Telegram)
are modelled as oracles supplied through an `Env` structure; everything the
repository itself computes (filtering, merge-diffing, score normalisation,
retention pruning, response parsing, the per-message state machine of `main`)
is translated into executable Lean definitions.  Machine floats appearing in
the source (`time.time()` arithmetic, `float(...)` coercion) are modelled over
`ℚ`; the statements proved below do not depend on rounding of binary floats.
-/

namespace OppAgent

/-- Association-list lookup, first match wins: the behaviour of a Python
`dict` built with unique keys (`d.get(k)` / `d[k]`). -/
def lookupA : List (String × String) → String → Option String
  | [], _ => none
  | (k, v) :: t, key => if k = key then some v else lookupA t key

/-- Association-list lookup with a default: Python `d.get(k, dflt)`. -/
def lookupD (d : List (String × String)) (k : String) (dflt : String) : String :=
  (lookupA d k).getD dflt

/-- Association-list assignment, replacing the first binding of the key and
appending when absent: Python `d[k] = v` on an insertion-ordered `dict`. -/
def setA : List (String × String) → String → String → List (String × String)
  | [], k, v => [(k, v)]
  | (k', v') :: t, k, v => if k' = k then (k', v) :: t else (k', v') :: setA t k v

/-- A parsed JSON object whose values are treated as opaque strings, the way
`main.py` consumes every extracted field. -/
abbrev Obj := List (String × String)

/-- Character-list membership of a contiguous run starting at the head. -/
def isPrefixL : List Char → List Char → Bool
  | [], _ => true
  | _ :: _, [] => false
  | a :: as, b :: bs => a = b && isPrefixL as bs

/-- Contiguous-substring test on character lists. -/
def isSubL (needle : List Char) : List Char → Bool
  | [] => needle.isEmpty
  | h :: t => isPrefixL needle (h :: t) || isSubL needle t

/-- Python's `needle in hay` on strings (contiguous substring). -/
def containsSub (hay needle : String) : Bool :=
  isSubL needle.toList hay.toList

/-- Python `s.strip()`: remove leading and trailing whitespace. -/
def pyStrip (s : String) : String :=
  String.mk (((s.toList.dropWhile Char.isWhitespace).reverse.dropWhile
    Char.isWhitespace).reverse)

/-- Python `s.lower()` (ASCII case folding). -/
def lowerStr (s : String) : String :=
  String.mk (s.toList.map Char.toLower)

-- ------------------------------------------------------------------
-- Retention store (`get_email_age_days`, `load_processed_emails`,
-- `save_processed_email` in main.py)
-- ------------------------------------------------------------------

/-- Value of a single hexadecimal digit. -/
def hexDigitVal? (c : Char) : Option Nat :=
  if '0' ≤ c ∧ c ≤ '9' then some (c.toNat - '0'.toNat)
  else if 'a' ≤ c ∧ c ≤ 'f' then some (c.toNat - 'a'.toNat + 10)
  else if 'A' ≤ c ∧ c ≤ 'F' then some (c.toNat - 'A'.toNat + 10)
  else none

/-- Python `int(s, 16)` on the bare hexadecimal strings Gmail uses as message
ids; `none` models the `ValueError` raised on a malformed id. -/
def hexNat? (s : String) : Option Nat :=
  if s.isEmpty then none
  else
    s.toList.foldl
      (fun acc c =>
        match acc, hexDigitVal? c with
        | some a, some d => some (a * 16 + d)
        | _, _ => none)
      (some 0)

/-- `get_email_age_days` (main.py lines 100-107): the id is read as hex, the
top bits (`>> 16`) are a millisecond timestamp, and the age in days is derived
from `now` (seconds since epoch, modelled in `ℚ`).  A malformed id yields 0. -/
def emailAgeDays (messageId : String) (now : ℚ) : ℚ :=
  match hexNat? messageId with
  | some n => (now - ((n >>> 16 : Nat) : ℚ) / 1000) / (24 * 60 * 60)
  | none => 0

/-- The pruning filter applied by `load_processed_emails` to a successfully
parsed identifier list (main.py lines 120-123). -/
def loadFromList (ids : List String) (now retentionDays : ℚ) : List String :=
  ids.filter (fun i => decide (emailAgeDays i now < retentionDays))

/-- The JSON value found in `processed_emails.json`, as far as the iteration in
`load_processed_emails` can observe it: an array of strings (the only shape the
program itself ever writes), or one of the other JSON shapes a corrupted file
could parse to.  Iterating a string yields its characters; iterating an object
yields its keys; a number, boolean or null is not iterable. -/
inductive JVal where
  | jarr (l : List String)
  | jstr (s : String)
  | jobjKeys (ks : List String)
  | jnum (n : Int)
  | jbool (b : Bool)
  | jnull
deriving DecidableEq

/-- `load_processed_emails` (main.py lines 109-130).  The file argument:
`none` = file absent, `some none` = contents not valid JSON
(`json.JSONDecodeError`), `some (some v)` = contents parsed to `v`.
`.error ()` models an uncaught `TypeError`: the `except` clause catches only
`json.JSONDecodeError`, so iterating a non-iterable parse result raises. -/
def loadProcessedEmails (file : Option (Option JVal)) (now retentionDays : ℚ) :
    Except Unit (List String) :=
  match file with
  | none => .ok []
  | some none => .ok []
  | some (some v) =>
    match v with
    | .jarr l => .ok (loadFromList l now retentionDays)
    | .jstr s => .ok (loadFromList (s.toList.map (fun c => String.mk [c])) now retentionDays)
    | .jobjKeys ks => .ok (loadFromList ks now retentionDays)
    | .jnum _ => .error ()
    | .jbool _ => .error ()
    | .jnull => .error ()

-- ------------------------------------------------------------------
-- Claim C5: pruning law
-- ------------------------------------------------------------------

/-- Claim C5: after pruning a persisted identifier list, every surviving
identifier has derived age strictly below the retention window, every dropped
identifier had derived age at least the retention window, and an identifier
whose embedded timestamp cannot be decoded has derived age 0 and survives
whenever the retention window is positive. -/
theorem pruning_law (ids : List String) (now retentionDays : ℚ) :
    (∀ i ∈ loadFromList ids now retentionDays, emailAgeDays i now < retentionDays) ∧
    (∀ i ∈ ids, i ∉ loadFromList ids now retentionDays →
      retentionDays ≤ emailAgeDays i now) ∧
    (∀ i ∈ ids, hexNat? i = none →
      emailAgeDays i now = 0 ∧ (0 < retentionDays → i ∈ loadFromList ids now retentionDays)) := by
  refine ⟨?_, ?_, ?_⟩
  · intro i hi
    have := List.of_mem_filter hi
    exact of_decide_eq_true this
  · intro i hi hni
    by_contra hlt
    push_neg at hlt
    exact hni (List.mem_filter.mpr ⟨hi, decide_eq_true hlt⟩)
  · intro i hi hhex
    have hage : emailAgeDays i now = 0 := by
      unfold emailAgeDays
      rw [hhex]
    refine ⟨hage, fun hpos => ?_⟩
    refine List.mem_filter.mpr ⟨hi, decide_eq_true ?_⟩
    rw [hage]
    exact hpos

/-- Witness for C5 at a concrete malformed identifier and retention window. -/
theorem pruning_law_witness :
    emailAgeDays "zz" 0 = 0 ∧ "zz" ∈ loadFromList ["zz"] 0 7 := by
  have h := (pruning_law ["zz"] 0 7).2.2 "zz" (by decide) (by decide)
  exact ⟨h.1, h.2 (by norm_num)⟩

-- ------------------------------------------------------------------
-- Claim C8: load fails soft
-- ------------------------------------------------------------------

/-- Claim C8 counterexample: the backing file holding the valid JSON document
`5` makes `load_processed_emails` raise an uncaught `TypeError` (only
`json.JSONDecodeError` is caught, and the set comprehension then iterates a
non-iterable `int`), so "never raises an exception" is false. -/
theorem load_raises_on_json_number :
    loadProcessedEmails (some (some (.jnum 5))) 0 7 = .error () := rfl

/-- Claim C8 amended: when the backing file is absent, or its contents are not
valid JSON, `load_processed_emails` returns the empty set without raising; a
parsed JSON array is also processed without raising; but contents that parse
to a non-iterable JSON value (number, boolean, null) raise an uncaught
`TypeError`. -/
theorem load_fails_soft_amended (now retentionDays : ℚ) :
    loadProcessedEmails none now retentionDays = .ok [] ∧
    loadProcessedEmails (some none) now retentionDays = .ok [] ∧
    (∀ l : List String, loadProcessedEmails (some (some (.jarr l))) now retentionDays =
      .ok (loadFromList l now retentionDays)) ∧
    (∀ n : Int, loadProcessedEmails (some (some (.jnum n))) now retentionDays = .error ()) ∧
    (∀ b : Bool, loadProcessedEmails (some (some (.jbool b))) now retentionDays = .error ()) ∧
    loadProcessedEmails (some (some .jnull)) now retentionDays = .error () := by
  refine ⟨rfl, rfl, fun l => rfl, fun n => rfl, fun b => rfl, rfl⟩

-- ------------------------------------------------------------------
-- Model-response parsing (`parse_ai_response`, main.py lines 241-251)
-- ------------------------------------------------------------------

/-- Python `s.find(c)` restricted to a single character, as an `Option`:
index of the first occurrence. -/
def findIdxC : List Char → Char → Option Nat
  | [], _ => none
  | a :: t, c => if a = c then some 0 else (findIdxC t c).map (· + 1)

/-- Python `s.rfind(c)` restricted to a single character, as an `Option`:
index of the last occurrence. -/
def rfindIdxC : List Char → Char → Option Nat
  | [], _ => none
  | a :: t, c =>
    match rfindIdxC t c with
    | some i => some (i + 1)
    | none => if a = c then some 0 else none

/-- `parse_ai_response` (main.py lines 241-251), parameterised by the external
`json.loads` oracle `jp` (which returns `none` exactly when the library would
raise `json.JSONDecodeError`, the one exception the function catches): take
the slice from the first `\x7b` to the last `\x7d` inclusive and hand it to
the parser; return `none` when either brace is absent.  The function is total:
it never raises. -/
def parseAiResponse (jp : String → Option Obj) (responseText : String) : Option Obj :=
  match findIdxC responseText.toList '\x7b', rfindIdxC responseText.toList '\x7d' with
  | some i, some j => jp (String.mk ((responseText.toList.drop i).take (j + 1 - i)))
  | some _, none => none
  | none, _ => none

theorem findIdxC_none {l : List Char} {c : Char} (h : findIdxC l c = none) : c ∉ l := by
  induction l with
  | nil => simp
  | cons a t ih =>
    intro hm
    simp only [findIdxC] at h
    by_cases hac : a = c
    · simp [hac] at h
    · simp only [if_neg hac, Option.map_eq_none'] at h
      rcases List.mem_cons.mp hm with h1 | h2
      · exact hac h1.symm
      · exact ih h h2

theorem findIdxC_spec {l : List Char} {c : Char} {i : Nat}
    (h : findIdxC l c = some i) :
    l.get? i = some c ∧ ∀ k, k < i → l.get? k ≠ some c := by
  induction l generalizing i with
  | nil => simp [findIdxC] at h
  | cons a t ih =>
    simp only [findIdxC] at h
    by_cases hac : a = c
    · simp only [if_pos hac] at h
      obtain rfl : (0 : Nat) = i := Option.some.inj h
      exact ⟨by simp [hac], by omega⟩
    · simp only [if_neg hac, Option.map_eq_some'] at h
      obtain ⟨i', hi', rfl⟩ := h
      obtain ⟨h1, h2⟩ := ih hi'
      refine ⟨by simpa using h1, ?_⟩
      intro k hk
      match k with
      | 0 => simpa using hac
      | k' + 1 =>
        have : k' < i' := by omega
        simpa using h2 k' this

theorem rfindIdxC_ne_none_of_mem {l : List Char} {c : Char} (h : c ∈ l) :
    rfindIdxC l c ≠ none := by
  induction l with
  | nil => simp at h
  | cons a t ih =>
    simp only [rfindIdxC]
    cases htail : rfindIdxC t c with
    | some i => simp
    | none =>
      rcases List.mem_cons.mp h with h1 | h2
      · simp [h1.symm]
      · exact absurd htail (ih h2)

theorem rfindIdxC_spec {l : List Char} {c : Char} {j : Nat}
    (h : rfindIdxC l c = some j) :
    l.get? j = some c ∧ ∀ k, j < k → l.get? k ≠ some c := by
  induction l generalizing j with
  | nil => simp [rfindIdxC] at h
  | cons a t ih =>
    simp only [rfindIdxC] at h
    cases htail : rfindIdxC t c with
    | some i =>
      rw [htail] at h
      obtain rfl : i + 1 = j := Option.some.inj h
      obtain ⟨h1, h2⟩ := ih htail
      refine ⟨by simpa using h1, ?_⟩
      intro k hk
      match k with
      | 0 => omega
      | k' + 1 =>
        have : i < k' := by omega
        simpa using h2 k' this
    | none =>
      rw [htail] at h
      by_cases hac : a = c
      · simp only [if_pos hac] at h
        obtain rfl : (0 : Nat) = j := Option.some.inj h
        have hnt : c ∉ t := fun hm => rfindIdxC_ne_none_of_mem hm htail
        refine ⟨by simp [hac], ?_⟩
        intro k hk
        match k with
        | 0 => omega
        | k' + 1 =>
          intro hmem
          exact hnt (List.get?_mem (by simpa using hmem))
      · simp [hac] at h

/-- Claim C7: for every model response, `parse_ai_response` locates the first
opening brace and the last closing brace, hands exactly that enclosed
substring to the JSON parser and returns its result (so a parse failure gives
`none`); when the text has no opening or no closing brace it returns `none`.
The function is a total Lean definition, so it never raises. -/
theorem parse_ai_response_contract (jp : String → Option Obj) (s : String) :
    (('\x7b' ∉ s.toList ∨ '\x7d' ∉ s.toList) → parseAiResponse jp s = none) ∧
    (∀ i j, findIdxC s.toList '\x7b' = some i → rfindIdxC s.toList '\x7d' = some j →
      parseAiResponse jp s = jp (String.mk ((s.toList.drop i).take (j + 1 - i)))) ∧
    (∀ i, findIdxC s.toList '\x7b' = some i →
      s.toList.get? i = some '\x7b' ∧ ∀ k, k < i → s.toList.get? k ≠ some '\x7b') ∧
    (∀ j, rfindIdxC s.toList '\x7d' = some j →
      s.toList.get? j = some '\x7d' ∧ ∀ k, j < k → s.toList.get? k ≠ some '\x7d') := by
  refine ⟨?_, ?_, fun i h => findIdxC_spec h, fun j h => rfindIdxC_spec h⟩
  · intro hmiss
    unfold parseAiResponse
    cases hf : findIdxC s.toList '\x7b' with
    | none => simp only [String.toList] at hf ⊢
    | some i =>
      cases hr : rfindIdxC s.toList '\x7d' with
      | none => simp only [String.toList] at hf hr ⊢
      | some j =>
        exfalso
        rcases hmiss with hm | hm
        · exact hm (List.get?_mem (findIdxC_spec hf).1)
        · exact hm (List.get?_mem (rfindIdxC_spec hr).1)
  · intro i j hf hr
    unfold parseAiResponse
    simp only [String.toList] at hf hr ⊢
    rw [hf, hr]

/-- Witness for C7: on the concrete response `x\x7by\x7dz` the parser hands
the slice `\x7by\x7d` to the JSON oracle. -/
theorem parse_ai_response_contract_witness :
    parseAiResponse (fun t => some [(t, t)]) "x\x7by\x7dz" =
      some [("\x7by\x7d", "\x7by\x7d")] := by
  have h := (parse_ai_response_contract (fun t => some [(t, t)]) "x\x7by\x7dz").2.1 1 3
    (by decide) (by decide)
  rw [h]
  decide

-- ------------------------------------------------------------------
-- Relevance-score normalisation
-- (`extract_initial_details_with_ai`, main.py lines 318-342)
-- ------------------------------------------------------------------

/-- Outcome of Python `float(s)` on a string, over `ℚ`: a finite value, an
infinity (literal `inf`/`infinity` or decimal overflow past the double range),
a NaN, or a `ValueError`. -/
inductive PyFloatRes where
  | finite (q : ℚ)
  | infinite
  | nanv
  | fail
deriving DecidableEq

/-- Digit run to a natural number, base 10. -/
def digitsToNat (l : List Char) : Nat :=
  l.foldl (fun a c => a * 10 + (c.toNat - '0'.toNat)) 0

/-- Binary exponentiation with explicit fuel, so that large powers reduce in
the kernel without deep recursion; with fuel above `log2 n` this computes
`b ^ n` (see `powBinAux_eq_pow`). -/
def powBinAux (b : ℚ) (n : ℕ) : ℕ → ℚ
  | 0 => 1
  | f + 1 =>
    if n = 0 then 1
    else if n % 2 = 0 then powBinAux (b * b) (n / 2) f
    else b * powBinAux (b * b) (n / 2) f

theorem powBinAux_eq_pow (b : ℚ) (n fuel : ℕ) (h : n < 2 ^ fuel) :
    powBinAux b n fuel = b ^ n := by
  induction fuel generalizing b n with
  | zero =>
    have h1 : (2 : ℕ) ^ 0 = 1 := pow_zero 2
    have h0 : n = 0 := by omega
    simp [powBinAux, h0]
  | succ f ih =>
    by_cases h0 : n = 0
    · simp [powBinAux, h0]
    · have h2 : (2 : ℕ) ^ (f + 1) = 2 ^ f * 2 := pow_succ 2 f
      have hhalf : n / 2 < 2 ^ f := by omega
      by_cases he : n % 2 = 0
      · have hn : 2 * (n / 2) = n := by omega
        rw [powBinAux, if_neg h0, if_pos he, ih (b * b) (n / 2) hhalf]
        calc (b * b) ^ (n / 2) = (b ^ 2) ^ (n / 2) := by rw [pow_two]
          _ = b ^ (2 * (n / 2)) := by rw [← pow_mul]
          _ = b ^ n := by rw [hn]
      · have hn : 2 * (n / 2) + 1 = n := by omega
        rw [powBinAux, if_neg h0, if_neg he, ih (b * b) (n / 2) hhalf]
        calc b * (b * b) ^ (n / 2) = b * (b ^ 2) ^ (n / 2) := by rw [pow_two]
          _ = b * b ^ (2 * (n / 2)) := by rw [← pow_mul]
          _ = b ^ (2 * (n / 2) + 1) := (pow_succ' b (2 * (n / 2))).symm
          _ = b ^ n := by rw [hn]

/-- First magnitude past the IEEE-754 double range: `2 ^ 1024`. -/
def doubleOverflow : ℚ := powBinAux 2 1024 16

/-- Rational power of ten, fuel taken from the digit count of the exponent
literal (always sufficient, since `10 ^ d` has fewer than `4 d` binary
digits). -/
def tenPowNat (n fuel : ℕ) : ℚ := powBinAux 10 n fuel

/-- Rational power of ten with an integer exponent. -/
def tenPow (z : ℤ) (fuel : ℕ) : ℚ :=
  match z with
  | .ofNat n => tenPowNat n fuel
  | .negSucc n => 1 / tenPowNat (n + 1) fuel

/-- Optional exponent tail of a Python float literal (`e`/`E`, optional sign,
nonempty digit run), applied to an already-parsed mantissa. -/
def parseExpPart (r : List Char) (mant : ℚ) : Option ℚ :=
  match r with
  | [] => some mant
  | e :: r2 =>
    if e = 'e' ∨ e = 'E' then
      let sgn : ℤ := match r2 with
        | '-' :: _ => -1
        | _ => 1
      let r3 := match r2 with
        | '+' :: t => t
        | '-' :: t => t
        | t => t
      let ds := r3.takeWhile Char.isDigit
      if ds.isEmpty ∨ ¬ (r3.dropWhile Char.isDigit).isEmpty then none
      else some (mant * tenPow (sgn * (digitsToNat ds : ℤ)) (4 * ds.length + 4))
    else none

/-- Unsigned decimal part of a Python float literal: digits, optional
fractional part, optional exponent; at least one mantissa digit required. -/
def parseDecimal (cs : List Char) : Option ℚ :=
  let ip := cs.takeWhile Char.isDigit
  let r1 := cs.dropWhile Char.isDigit
  match r1 with
  | [] => if ip.isEmpty then none else some (digitsToNat ip : ℚ)
  | '.' :: r2 =>
    let fp := r2.takeWhile Char.isDigit
    let r3 := r2.dropWhile Char.isDigit
    if ip.isEmpty ∧ fp.isEmpty then none
    else parseExpPart r3 ((digitsToNat (ip ++ fp) : ℚ) / tenPowNat fp.length (fp.length + 1))
  | _ => if ip.isEmpty then none else parseExpPart r1 (digitsToNat ip : ℚ)

/-- Python 3 numeric-string underscores: every underscore must sit between two
digits. -/
def usAux (prev : Char) : List Char → Bool
  | [] => true
  | c :: t =>
    if c = '_' then
      prev.isDigit &&
        (match t with
         | n :: _ => n.isDigit
         | [] => false) &&
        usAux c t
    else usAux c t

/-- Underscore-placement validity for the whole literal body. -/
def underscoresOk : List Char → Bool
  | [] => true
  | c :: t => if c = '_' then false else usAux c t

/-- Python `float(s)` over `ℚ` (ASCII literals): strips whitespace, handles an
optional sign, recognises `inf`/`infinity`/`nan` case-insensitively, validates
underscores, parses the decimal literal, and maps magnitudes beyond the double
range to infinity (as C `strtod` overflow does). -/
def pyFloat (s : String) : PyFloatRes :=
  let cs := (pyStrip s).toList
  let neg : Bool := match cs with
    | '-' :: _ => true
    | _ => false
  let body := match cs with
    | '+' :: t => t
    | '-' :: t => t
    | t => t
  let lower := body.map Char.toLower
  if lower = "inf".toList ∨ lower = "infinity".toList then .infinite
  else if lower = "nan".toList then .nanv
  else if ¬ underscoresOk body then .fail
  else
    match parseDecimal (body.filter (fun c => c ≠ '_')) with
    | none => .fail
    | some q0 =>
      let q := if neg then -q0 else q0
      if q ≤ -doubleOverflow ∨ doubleOverflow ≤ q then .infinite
      else .finite q

/-- Python `round` on a rational: round half to even. -/
def pyRound (q : ℚ) : ℤ :=
  let f := ⌊q⌋
  let r := q - f
  if r < 1 / 2 then f
  else if 1 / 2 < r then f + 1
  else if f % 2 = 0 then f else f + 1

/-- The header key of the relevance-score field. -/
def scoreKey : String := "Relevance Score (1-10)"

/-- The text the score validation feeds to `float`: the part before the first
slash, stripped. -/
def scoreText (raw : String) : String :=
  pyStrip (String.mk (raw.toList.takeWhile (fun c => c ≠ '/')))

/-- The relevance-score post-processing of `extract_initial_details_with_ai`
(main.py lines 318-342) applied to the parsed model output.  A missing key
leaves the data untouched; a finite coercion is rounded, clamped to `[1,10]`
and re-encoded; `ValueError`/`TypeError` (unparsable text, NaN) are caught and
force `"3"`; an infinite value makes `round` raise `OverflowError`, which the
inner handler does not catch, so the outer handler swallows it and the whole
extraction returns `none`. -/
def extractPostProcess (parsed : Option Obj) : Option Obj :=
  match parsed with
  | none => none
  | some o =>
    match lookupA o scoreKey with
    | none => some o
    | some raw =>
      match pyFloat (scoreText raw) with
      | .finite q => some (setA o scoreKey (toString (max 1 (min 10 (pyRound q)))))
      | .nanv => some (setA o scoreKey "3")
      | .fail => some (setA o scoreKey "3")
      | .infinite => none

theorem doubleOverflow_eq : doubleOverflow = 2 ^ 1024 := by
  rw [doubleOverflow, powBinAux_eq_pow]
  norm_num

theorem pyFloat_eight : pyFloat "8" = .finite 8 := by
  have h : pyFloat "8" =
      (if ((8 : ℕ) : ℚ) ≤ -doubleOverflow ∨ doubleOverflow ≤ ((8 : ℕ) : ℚ) then
        PyFloatRes.infinite
       else .finite ((8 : ℕ) : ℚ)) := rfl
  rw [h, doubleOverflow_eq]
  norm_num

theorem pyFloat_eleven : pyFloat "11" = .finite 11 := by
  have h : pyFloat "11" =
      (if ((11 : ℕ) : ℚ) ≤ -doubleOverflow ∨ doubleOverflow ≤ ((11 : ℕ) : ℚ) then
        PyFloatRes.infinite
       else .finite ((11 : ℕ) : ℚ)) := rfl
  rw [h, doubleOverflow_eq]
  norm_num

theorem lookupA_setA_self (o : Obj) (k v : String) :
    lookupA (setA o k v) k = some v := by
  induction o with
  | nil => simp [setA, lookupA]
  | cons p t ih =>
    by_cases h : p.1 = k
    · simp [setA, lookupA, h]
    · simp [setA, lookupA, h, ih]

/-- Claim C9 counterexample: with the relevance-score key present and raw
value `"inf"`, Python coerces it to an infinite float and `round` then raises
`OverflowError`, which `except (ValueError, TypeError)` does not catch; the
outer handler swallows it and the whole extraction returns no data — so
nothing at all is stored, contradicting "whenever the relevance-score key is
present, the stored result is the string encoding of an integer clamped into
[1,10], with 3 stored when the value cannot be coerced". -/
theorem score_inf_aborts_extraction :
    extractPostProcess (some [(scoreKey, "inf")]) = none := by decide

/-- Claim C9 amended: the three concrete normalisations hold (`"8/10"` to
`"8"`, `"11"` to `"10"`, `"abc"` to `"3"`); whenever the relevance-score key
is present and post-processing returns a result at all, the stored score is
the string encoding of an integer in `[1,10]`, and a value float-coercion
rejects is stored as `"3"` — but an infinite coercion aborts the whole
extraction instead of storing anything (see the counterexample). -/
theorem relevance_score_normalization_amended :
    extractPostProcess (some [(scoreKey, "8/10")]) = some [(scoreKey, "8")] ∧
    extractPostProcess (some [(scoreKey, "11")]) = some [(scoreKey, "10")] ∧
    extractPostProcess (some [(scoreKey, "abc")]) = some [(scoreKey, "3")] ∧
    (∀ o raw, lookupA o scoreKey = some raw → pyFloat (scoreText raw) = .fail →
      extractPostProcess (some o) = some (setA o scoreKey "3")) ∧
    (∀ o raw o', lookupA o scoreKey = some raw → extractPostProcess (some o) = some o' →
      ∃ n : ℤ, 1 ≤ n ∧ n ≤ 10 ∧ lookupA o' scoreKey = some (toString n)) := by
  refine ⟨?_, ?_, by decide, ?_, ?_⟩
  · have h1 : scoreText "8/10" = "8" := by decide
    have h3 : pyRound ((8 : ℚ)) = 8 := by
      simp only [pyRound]
      norm_num
    simp only [extractPostProcess, lookupA, if_pos, h1, pyFloat_eight, h3]
    decide
  · have h1 : scoreText "11" = "11" := by decide
    have h3 : pyRound ((11 : ℚ)) = 11 := by
      simp only [pyRound]
      norm_num
    simp only [extractPostProcess, lookupA, if_pos, h1, pyFloat_eleven, h3]
    decide
  · intro o raw hlk hf
    simp only [extractPostProcess, hlk, hf]
  · intro o raw o' hlk hpp
    simp only [extractPostProcess, hlk] at hpp
    cases hf : pyFloat (scoreText raw) with
    | finite q =>
      rw [hf] at hpp
      obtain rfl : setA o scoreKey (toString (max 1 (min 10 (pyRound q)))) = o' :=
        Option.some.inj hpp
      refine ⟨max 1 (min 10 (pyRound q)), le_max_left 1 _, ?_, lookupA_setA_self o scoreKey _⟩
      exact max_le (by norm_num) (min_le_left 10 _)
    | nanv =>
      rw [hf] at hpp
      obtain rfl : setA o scoreKey "3" = o' := Option.some.inj hpp
      exact ⟨3, by norm_num, by norm_num, lookupA_setA_self o scoreKey _⟩
    | fail =>
      rw [hf] at hpp
      obtain rfl : setA o scoreKey "3" = o' := Option.some.inj hpp
      exact ⟨3, by norm_num, by norm_num, lookupA_setA_self o scoreKey _⟩
    | infinite =>
      rw [hf] at hpp
      exact absurd hpp (by simp)

/-- Witness for the amended C9 at a concrete uncoercible score. -/
theorem relevance_score_normalization_amended_witness :
    extractPostProcess (some [(scoreKey, "x/y")]) =
      some (setA [(scoreKey, "x/y")] scoreKey "3") :=
  relevance_score_normalization_amended.2.2.2.1 [(scoreKey, "x/y")] "x/y"
    (by decide) (by decide)

-- ------------------------------------------------------------------
-- Data model: email metadata and details (main.py `get_email_metadata`
-- and the `email_details` dict built in `main`)
-- ------------------------------------------------------------------

/-- An attachment reference: id plus (lowercased) filename. -/
structure AttRef where
  attId : String
  filename : String
deriving DecidableEq

/-- The metadata dict returned by `get_email_metadata`. -/
structure EmailMeta where
  msgId : String
  threadId : String
  sender_raw : String
  sender_email : String
  subject : String
  body : String
  attachment_ids : List AttRef
deriving DecidableEq

/-- The `email_details` dict built in `main` (main.py lines 543-551). -/
structure EmailDetails where
  msgId : String
  threadId : String
  sender_raw : String
  sender_email : String
  subject : String
  body : String
  attachment_text : String
deriving DecidableEq

/-- Assembly of `email_details` from metadata plus resolved attachment text. -/
def mkDetails (meta : EmailMeta) (att : String) : EmailDetails :=
  { msgId := meta.msgId, threadId := meta.threadId, sender_raw := meta.sender_raw,
    sender_email := meta.sender_email, subject := meta.subject, body := meta.body,
    attachment_text := att }

/-- `TRUSTED_DOMAINS` (main.py line 42). -/
def TRUSTED_DOMAINS : List String := ["iitm.ac.in"]

/-- `OPPORTUNITY_KEYWORDS` (main.py line 43). -/
def OPPORTUNITY_KEYWORDS : List String :=
  ["internship", "hiring", "research fellowship", "research internship",
   "fellowship", "recruiting", "job alert", "job opportunity"]

/-- The first cheap filter: some trusted domain occurs in the normalized
sender address (main.py line 518). -/
def trustedSender (senderEmail : String) : Bool :=
  TRUSTED_DOMAINS.any (fun d => containsSub senderEmail d)

/-- `email_text_for_search` (main.py line 523). -/
def searchText (meta : EmailMeta) : String :=
  lowerStr (meta.subject ++ " " ++ meta.body)

/-- The second cheap filter: some opportunity keyword occurs in the lowered
subject-plus-body text (main.py line 524). -/
def hasKeyword (t : String) : Bool :=
  OPPORTUNITY_KEYWORDS.any (fun k => containsSub t k)

-- ------------------------------------------------------------------
-- Sheet model (the gspread worksheet, per the narrow interface main.py
-- uses: col_values, find, row_values, update, append_row)
-- ------------------------------------------------------------------

/-- The worksheet as a grid of cell strings; row 1 of the sheet is list
index 0.  Rows 1-3 are headers, with the header names on row 3. -/
abbrev Sheet := List (List String)

/-- `worksheet.col_values(1)`: first cell of every row. -/
def colValues1 (s : Sheet) : List String :=
  s.map (fun r => r.headD "")

/-- `set(worksheet.col_values(1)[3:])` (main.py line 494): the known thread
ids, i.e. the key column below the three header rows. -/
def existingThreadIds (s : Sheet) : List String :=
  (colValues1 s).drop 3

/-- Index of the first element satisfying the predicate. -/
def findIdxA {α : Type} (p : α → Bool) : List α → Option Nat
  | [] => none
  | a :: t => if p a then some 0 else (findIdxA p t).map (fun i => i + 1)

/-- `worksheet.find(thread_id)` used as the row lookup keyed on the thread-id
column: 1-based index of the first data row (row 4 onwards) whose first cell
is the value, `none` when no such row exists (the provider's
find-row-by-value from the spec's external-interface contract). -/
def findRowByKey (s : Sheet) (t : String) : Option Nat :=
  (findIdxA (fun r => r.headD "" = t) (s.drop 3)).map (fun i => i + 4)

/-- `worksheet.row_values(r)` (1-based). -/
def rowValues (s : Sheet) (r : Nat) : List String :=
  s.getD (r - 1) []

/-- `worksheet.update(values=[vals], 'A<r>')`: overwrite the first
`vals.length` cells of row `r`, leaving any further cells unchanged. -/
def updateRowA (s : Sheet) (r : Nat) (vals : List String) : Sheet :=
  s.set (r - 1) (vals ++ (s.getD (r - 1) []).drop vals.length)

/-- `original_data_dict` (main.py line 566): Python dict comprehension over
`enumerate(column_headers)`, so a duplicated header keeps the last row value. -/
def buildDict (headers vals : List String) : Obj :=
  headers.enum.foldl (fun d p => setA d p.2 (vals.getD p.1 "")) []

-- ------------------------------------------------------------------
-- Merge-diff computation (main.py lines 570-584)
-- ------------------------------------------------------------------

/-- Accumulator of the merge loop: the merged copy, the `has_changed` flag
and the `cells_to_format` list. -/
structure MergeAcc where
  merged : Obj
  changed : Bool
  fmts : List (Nat × Nat)
deriving DecidableEq

/-- One iteration of `for key, new_value in updated_data_json.items()`
(main.py lines 575-584): overwrite only when the key is a current field, the
new value is not the `N/A` sentinel, and it differs from the current value;
record the cell to highlight (the header index lookup cannot fail for a key
of the merged dict, but the source guards it, so the guard is kept). -/
def mergeStep (headers : List String) (row : Nat) (acc : MergeAcc)
    (kv : String × String) : MergeAcc :=
  if (lookupA acc.merged kv.1).isSome ∧ kv.2 ≠ "N/A" ∧
      lookupA acc.merged kv.1 ≠ some kv.2 then
    { merged := setA acc.merged kv.1 kv.2
      changed := true
      fmts := if headers.contains kv.1 then
          acc.fmts ++ [(row, headers.indexOf kv.1 + 1)]
        else acc.fmts }
  else acc

/-- The whole merge loop over the delta-extraction result. -/
def mergeFold (original : Obj) (upd : Obj) (headers : List String) (row : Nat) :
    MergeAcc :=
  upd.foldl (mergeStep headers row) ⟨original, false, []⟩

-- ------------------------------------------------------------------
-- The per-run environment: external collaborators as oracles
-- ------------------------------------------------------------------

/-- External collaborators of one run, as deterministic oracles.
`Except Unit` models a raised exception from a provider call that the
surrounding repository code does not catch locally. -/
structure Env where
  /-- `get_email_metadata`: fetch plus parse; internal `except` returns
  `None` on any failure, so the oracle is total. -/
  metadata : String → Option EmailMeta
  /-- The model call inside `is_opportunity_ai_check`; the function itself
  has no handler, so a raise propagates. -/
  genCheck : String → Except Unit String
  /-- `fetch_and_parse_attachments`: per-attachment failures are swallowed
  inside, so the oracle is total, keyed by message id. -/
  attachText : String → String
  /-- The model call inside `extract_initial_details_with_ai` (raises are
  caught by that function's own handler). -/
  genInitial : EmailDetails → Except Unit String
  /-- The model call inside `update_details_with_ai` (no local handler; the
  merge-path `except` in `main` catches it). -/
  genDelta : EmailDetails → Except Unit String
  /-- `json.loads` restricted to object results; `none` models
  `json.JSONDecodeError`. -/
  jp : String → Option Obj
  /-- Fault injection for `worksheet.append_row` (no handler in `main`). -/
  appendFault : List String → Bool
  /-- Fault injection for `worksheet.update` (caught by the merge-path
  `except`). -/
  updateFault : Nat → Bool
  /-- `time.strftime(...)` used in the appended row. -/
  timeStr : String

/-- `is_opportunity_ai_check` (main.py lines 235-239): `"yes" in
response.text.lower()`; the model call itself may raise. -/
def aiCheck (env : Env) (t : String) : Except Unit Bool :=
  (env.genCheck t).map (fun resp => containsSub (lowerStr resp) "yes")

/-- `update_details_with_ai` (main.py lines 348-378): model call, then
`parse_ai_response`. -/
def deltaExtract (env : Env) (d : EmailDetails) : Except Unit (Option Obj) :=
  (env.genDelta d).map (fun resp => parseAiResponse env.jp resp)

/-- `extract_initial_details_with_ai` (main.py lines 253-342): model call and
parsing inside a broad handler that turns any raise into `None`; the parsed
object then passes through the relevance-score post-processing. -/
def extractInitial (env : Env) (d : EmailDetails) : Option Obj :=
  match env.genInitial d with
  | .error _ => none
  | .ok resp => extractPostProcess (parseAiResponse env.jp resp)

/-- `format_row_from_json` (main.py lines 382-395). -/
def formatRow (env : Env) (threadId : String) (d : EmailDetails)
    (data : Obj) : List String :=
  [threadId, env.timeStr,
   lookupD data "Application Deadline" "N/A", d.sender_raw,
   lookupD data "Institution/Company" "N/A", lookupD data "Eligibility" "All",
   lookupD data "Role Title" "N/A",
   lookupD data "Opportunity Type" "N/A", lookupD data "Role Field" "N/A",
   lookupD data "Location" "N/A", lookupD data "Work Mode" "N/A",
   lookupD data "Duration" "N/A", lookupD data "Time Commitment" "N/A",
   lookupD data "Stipend Details" "N/A", lookupD data "Required Skills" "N/A",
   lookupD data "Job Description (JD)" "N/A", lookupD data "Application Link" "N/A",
   lookupD data "Relevance Score (1-10)" "N/A", d.subject]

-- ------------------------------------------------------------------
-- The run state and the per-message state machine of `main`
-- ------------------------------------------------------------------

/-- A durable-store write performed by the run. -/
inductive WriteOp where
  | append (row : List String)
  | update (r : Nat) (vals : List String)
  | fmt (cells : List (Nat × Nat))
deriving DecidableEq

/-- The mutable state of one run of `main`: the worksheet, the processed-id
set (also the content of `processed_emails.json`, rewritten on every save),
the in-memory known-thread set, the two notification accumulators, and the
log of durable-store writes. -/
structure RunState where
  sheet : Sheet
  processed : List String
  existing : List String
  newN : List Obj
  updN : List (Obj × Obj)
  writes : List WriteOp
deriving DecidableEq

/-- Python `set.add` on a list model: append when absent. -/
def addId (l : List String) (i : String) : List String :=
  if l.contains i then l else l ++ [i]

/-- `save_processed_email(msg_id, processed_ids)` (main.py lines 132-136):
add to the in-memory set and rewrite the backing file. -/
def withSave (st : RunState) (mid : String) : RunState :=
  { st with processed := addId st.processed mid }

/-- The attachment text resolved for a message: fetched only when the
metadata listed attachments (main.py lines 537-540). -/
def attachFor (env : Env) (mid : String) (meta : EmailMeta) : String :=
  if meta.attachment_ids.isEmpty then "" else env.attachText mid

/-- One iteration of the message loop of `main` (main.py lines 506-641).
`.ok st` means the loop continues with state `st`; `.error st` means an
uncaught exception aborted the whole run with state `st` (the AI classifier
call of the filter stage and `append_row` of the new-record path are the two
calls made outside any handler). -/
def processMessage (env : Env) (st : RunState) (mid : String) :
    Except RunState RunState :=
  if st.processed.contains mid then .ok st
  else
    match env.metadata mid with
    | none => .ok (withSave st mid)
    | some meta =>
      if ¬ trustedSender meta.sender_email then .ok (withSave st mid)
      else if ¬ hasKeyword (searchText meta) then .ok (withSave st mid)
      else
        match aiCheck env (searchText meta) with
        | .error _ => .error st
        | .ok false => .ok (withSave st mid)
        | .ok true =>
          let details := mkDetails meta (attachFor env mid meta)
          if st.existing.contains meta.threadId then
            -- merge-update path, wrapped in `try ... except Exception`
            match findRowByKey st.sheet meta.threadId with
            | none => .ok st  -- `if not cell: continue` skips the save
            | some r =>
              let headers := st.sheet.getD 2 []
              let original := buildDict headers (rowValues st.sheet r)
              match deltaExtract env details with
              | .error _ => .ok (withSave st mid)  -- raise caught by the merge-path handler
              | .ok none => .ok (withSave st mid)
              | .ok (some upd) =>
                let acc := mergeFold original upd headers r
                if acc.changed then
                  if env.updateFault r then .ok (withSave st mid)  -- update raised, caught
                  else
                    let finalRow := headers.map (fun h => lookupD acc.merged h "")
                    .ok { sheet := updateRowA st.sheet r finalRow
                          processed := addId st.processed mid
                          existing := st.existing
                          newN := st.newN
                          updN := st.updN ++ [(original, acc.merged)]
                          writes := st.writes ++ [.update r finalRow] ++
                            (if acc.fmts.isEmpty then [] else [.fmt acc.fmts]) }
                else .ok (withSave st mid)
          else
            -- new-record path
            match extractInitial env details with
            | none => .ok (withSave st mid)
            | some data =>
              let row := formatRow env meta.threadId details data
              if env.appendFault row then .error st  -- append_row raise is uncaught
              else
                .ok { sheet := st.sheet ++ [row]
                      processed := addId st.processed mid
                      existing := addId st.existing meta.threadId
                      newN := st.newN ++ [data]
                      updN := st.updN
                      writes := st.writes ++ [.append row] }

/-- The message loop: run `processMessage` over the listed messages, aborting
on an uncaught exception. -/
def runLoop (env : Env) : List String → RunState → Except RunState RunState
  | [], st => .ok st
  | m :: rest, st =>
    match processMessage env st m with
    | .ok st' => runLoop env rest st'
    | .error st' => .error st'

/-- The state a run ends in, whether it completed or aborted. -/
def runResult : Except RunState RunState → RunState
  | .ok st => st
  | .error st => st

/-- The state `main` starts the loop from: worksheet as read, processed ids
as loaded, known-thread set from the sheet's key column, empty notification
accumulators. -/
def initState (sheet : Sheet) (proc : List String) : RunState :=
  { sheet := sheet, processed := proc, existing := existingThreadIds sheet,
    newN := [], updN := [], writes := [] }

/-- Outcome of `users().messages().list`: a message-id list or an `HttpError`
(the only exception `get_emails` catches, yielding an empty list). -/
inductive SearchOutcome where
  | found (l : List String)
  | httpError

/-- `get_emails` (main.py lines 140-150). -/
def getEmails : SearchOutcome → List String
  | .found l => l
  | .httpError => []

/-- `main` after setup: list messages, return early when there are none
(printing and exiting), otherwise run the loop.  `none` models the early
return with no message processed. -/
def runMain (env : Env) (search : SearchOutcome) (sheet : Sheet)
    (proc : List String) : Option (Except RunState RunState) :=
  match getEmails search with
  | [] => none
  | msgs => some (runLoop env msgs (initState sheet proc))

/-- Whether the end-of-run summary notification is sent (main.py line 642):
exactly when either accumulator is non-empty. -/
def sendsNotification (st : RunState) : Bool :=
  ¬ (st.newN.isEmpty ∧ st.updN.isEmpty)

-- ------------------------------------------------------------------
-- Merge-law lemmas (claims C3 and C4)
-- ------------------------------------------------------------------

theorem setA_lookup_ne {k k' : String} (l : Obj) (v : String) (h : k' ≠ k) :
    lookupA (setA l k' v) k = lookupA l k := by
  induction l with
  | nil => simp [setA, lookupA, h]
  | cons p t ih =>
    by_cases hp : p.1 = k'
    · simp [setA, lookupA, hp, h, ih]
    · simp only [setA, if_neg hp, lookupA]
      by_cases hk : p.1 = k
      · simp [hk]
      · simp [hk, ih]

theorem mergeStep_lookup_ne {k : String} (headers : List String) (row : Nat)
    (acc : MergeAcc) (kv : String × String) (h : kv.1 ≠ k) :
    lookupA (mergeStep headers row acc kv).merged k = lookupA acc.merged k := by
  unfold mergeStep
  by_cases hc : (lookupA acc.merged kv.1).isSome ∧ kv.2 ≠ "N/A" ∧
      lookupA acc.merged kv.1 ≠ some kv.2
  · simp only [if_pos hc]
    exact setA_lookup_ne acc.merged kv.2 h
  · simp [if_neg hc]

theorem foldl_mergeStep_lookup_not {k : String} (headers : List String) (row : Nat) :
    ∀ (upd : Obj) (acc : MergeAcc), k ∉ upd.map Prod.fst →
      lookupA (upd.foldl (mergeStep headers row) acc).merged k = lookupA acc.merged k := by
  intro upd
  induction upd with
  | nil => intro acc _; rfl
  | cons kv rest ih =>
    intro acc hk
    simp only [List.map_cons, List.mem_cons, not_or] at hk
    rw [List.foldl_cons, ih _ hk.2,
      mergeStep_lookup_ne headers row acc kv (fun he => hk.1 he.symm)]

theorem foldl_mergeStep_lookup {k v : String} (headers : List String) (row : Nat) :
    ∀ (upd : Obj) (acc : MergeAcc), (upd.map Prod.fst).Nodup → (k, v) ∈ upd →
      lookupA (upd.foldl (mergeStep headers row) acc).merged k =
        if (lookupA acc.merged k).isSome ∧ v ≠ "N/A" ∧ lookupA acc.merged k ≠ some v
        then some v else lookupA acc.merged k := by
  intro upd
  induction upd with
  | nil => intro acc _ hmem; simp at hmem
  | cons kv rest ih =>
    intro acc hnd hmem
    simp only [List.map_cons, List.nodup_cons] at hnd
    by_cases hk : kv.1 = k
    · -- head is the key; by key uniqueness the pair is exactly (k, v)
      have hkv : kv = (k, v) := by
        rcases List.mem_cons.mp hmem with h1 | h2
        · exact h1.symm
        · exfalso
          exact hnd.1 (hk ▸ (List.mem_map.mpr ⟨(k, v), h2, rfl⟩))
      subst hkv
      have hrest : k ∉ rest.map Prod.fst := hnd.1
      rw [List.foldl_cons, foldl_mergeStep_lookup_not headers row rest _ hrest]
      unfold mergeStep
      by_cases hc : (lookupA acc.merged k).isSome ∧ v ≠ "N/A" ∧
          lookupA acc.merged k ≠ some v
      · simp only [if_pos hc]
        exact lookupA_setA_self acc.merged k v
      · simp only [if_neg hc]
    · have hmem' : (k, v) ∈ rest := by
        rcases List.mem_cons.mp hmem with h1 | h2
        · exact absurd (congrArg Prod.fst h1.symm) hk
        · exact h2
      rw [List.foldl_cons, ih _ hnd.2 hmem',
        mergeStep_lookup_ne headers row acc kv hk]

/-- Claim C3: in a merge-update, a key returned by delta extraction whose
value is the `N/A` sentinel or equals the currently stored value leaves the
stored value unchanged, and any other returned key (with a stored value)
makes the stored value become the returned value exactly.  Keys of a parsed
JSON object are unique, hence the `Nodup` hypothesis. -/
theorem merge_law (original upd : Obj) (headers : List String) (row : Nat)
    (k v cur : String)
    (hnd : (upd.map Prod.fst).Nodup)
    (hcur : lookupA original k = some cur)
    (hupd : (k, v) ∈ upd) :
    ((v = "N/A" ∨ v = cur) →
      lookupA (mergeFold original upd headers row).merged k = some cur) ∧
    (v ≠ "N/A" → v ≠ cur →
      lookupA (mergeFold original upd headers row).merged k = some v) := by
  have h := foldl_mergeStep_lookup headers row upd ⟨original, false, []⟩ hnd hupd
  unfold mergeFold
  constructor
  · intro hv
    rw [h, hcur]
    rcases hv with hv | hv
    · rw [if_neg]
      intro hc
      exact hc.2.1 hv
    · rw [if_neg]
      intro hc
      exact hc.2.2 (by rw [hv])
  · intro hv1 hv2
    rw [h, hcur, if_pos]
    exact ⟨rfl, hv1, fun he => hv2 (Option.some.inj he).symm⟩

/-- Witness for C3 at a concrete changed field. -/
theorem merge_law_witness :
    lookupA (mergeFold [("Location", "X")] [("Location", "Y")] ["Location"] 4).merged
      "Location" = some "Y" :=
  (merge_law [("Location", "X")] [("Location", "Y")] ["Location"] 4
    "Location" "Y" "X" (by decide) (by decide) (by decide)).2
    (by decide) (by decide)

/-- Claim C4 counterexample: a returned empty-string value does replace the
stored value (the source checks only `new_value != "N/A"` and difference from
the current value — there is no non-empty test on main.py line 576), so "a
returned empty-string value never replaces the stored value" is false. -/
theorem empty_value_overwrites :
    lookupA (mergeFold [("Location", "Bengaluru, India")] [("Location", "")]
      ["Location"] 4).merged "Location" = some "" := by decide

/-- Claim C4 amended: a key returned by delta extraction overwrites the
merged copy exactly when it names a stored field, its value is not the `N/A`
sentinel, and its value differs from the current stored value; emptiness is
not checked, so a returned empty string does replace a different stored
value. -/
theorem merge_overwrite_condition_amended (original upd : Obj)
    (headers : List String) (row : Nat) (k v cur : String)
    (hnd : (upd.map Prod.fst).Nodup)
    (hcur : lookupA original k = some cur)
    (hupd : (k, v) ∈ upd) :
    lookupA (mergeFold original upd headers row).merged k =
      some (if v ≠ "N/A" ∧ v ≠ cur then v else cur) := by
  have h := foldl_mergeStep_lookup headers row upd ⟨original, false, []⟩ hnd hupd
  unfold mergeFold
  rw [h, hcur]
  by_cases hc : v ≠ "N/A" ∧ v ≠ cur
  · rw [if_pos ⟨rfl, hc.1, fun he => hc.2 (Option.some.inj he).symm⟩, if_pos hc]
  · rw [if_neg, if_neg hc]
    intro hcond
    exact hc ⟨hcond.2.1, fun he => hcond.2.2 (by rw [he])⟩

/-- Witness for the amended C4: an empty returned value replacing a stored
field. -/
theorem merge_overwrite_condition_amended_witness :
    lookupA (mergeFold [("Stipend Details", "5000 INR")] [("Stipend Details", "")]
      ["Stipend Details"] 5).merged "Stipend Details" = some "" := by
  have h := merge_overwrite_condition_amended [("Stipend Details", "5000 INR")]
    [("Stipend Details", "")] ["Stipend Details"] 5 "Stipend Details" "" "5000 INR"
    (by decide) (by decide) (by decide)
  rw [h]
  decide

-- ------------------------------------------------------------------
-- Path equations of `processMessage`
-- ------------------------------------------------------------------

theorem contains_addId_self (l : List String) (i : String) :
    (addId l i).contains i = true := by
  unfold addId
  split
  · next h => exact h
  · next h => exact List.elem_iff.mpr (List.mem_append.mpr (Or.inr (by simp)))

theorem contains_withSave_self (st : RunState) (mid : String) :
    (withSave st mid).processed.contains mid = true :=
  contains_addId_self st.processed mid

theorem mem_of_contains_true {l : List String} {a : String}
    (h : l.contains a = true) : a ∈ l := List.elem_iff.mp h

theorem not_mem_of_contains_false {l : List String} {a : String}
    (h : l.contains a = false) : a ∉ l := fun hm => by
  have h2 : l.contains a = true := List.elem_iff.mpr hm
  rw [h2] at h
  simp at h

section PathEquations

variable (env : Env) (st : RunState) (mid : String) (meta : EmailMeta)

theorem pm_skip (h : st.processed.contains mid = true) :
    processMessage env st mid = .ok st := by
  unfold processMessage
  rw [if_pos h]

theorem pm_meta_none (h1 : st.processed.contains mid = false)
    (h2 : env.metadata mid = none) :
    processMessage env st mid = .ok (withSave st mid) := by
  simp [processMessage, not_mem_of_contains_false h1, h2]

theorem pm_untrusted (h1 : st.processed.contains mid = false)
    (h2 : env.metadata mid = some meta)
    (h3 : trustedSender meta.sender_email = false) :
    processMessage env st mid = .ok (withSave st mid) := by
  simp [processMessage, not_mem_of_contains_false h1, h2, h3]

theorem pm_nokeyword (h1 : st.processed.contains mid = false)
    (h2 : env.metadata mid = some meta)
    (h3 : trustedSender meta.sender_email = true)
    (h4 : hasKeyword (searchText meta) = false) :
    processMessage env st mid = .ok (withSave st mid) := by
  simp [processMessage, not_mem_of_contains_false h1, h2, h3, h4]

theorem pm_ai_raise (h1 : st.processed.contains mid = false)
    (h2 : env.metadata mid = some meta)
    (h3 : trustedSender meta.sender_email = true)
    (h4 : hasKeyword (searchText meta) = true)
    (h5 : aiCheck env (searchText meta) = .error ()) :
    processMessage env st mid = .error st := by
  simp [processMessage, not_mem_of_contains_false h1, h2, h3, h4, h5]

theorem pm_ai_no (h1 : st.processed.contains mid = false)
    (h2 : env.metadata mid = some meta)
    (h3 : trustedSender meta.sender_email = true)
    (h4 : hasKeyword (searchText meta) = true)
    (h5 : aiCheck env (searchText meta) = .ok false) :
    processMessage env st mid = .ok (withSave st mid) := by
  simp [processMessage, not_mem_of_contains_false h1, h2, h3, h4, h5]

theorem pm_missing_row (h1 : st.processed.contains mid = false)
    (h2 : env.metadata mid = some meta)
    (h3 : trustedSender meta.sender_email = true)
    (h4 : hasKeyword (searchText meta) = true)
    (h5 : aiCheck env (searchText meta) = .ok true)
    (h6 : st.existing.contains meta.threadId = true)
    (h7 : findRowByKey st.sheet meta.threadId = none) :
    processMessage env st mid = .ok st := by
  simp [processMessage, not_mem_of_contains_false h1, h2, h3, h4, h5, mem_of_contains_true h6, h7]

theorem pm_delta_raise (r : Nat) (h1 : st.processed.contains mid = false)
    (h2 : env.metadata mid = some meta)
    (h3 : trustedSender meta.sender_email = true)
    (h4 : hasKeyword (searchText meta) = true)
    (h5 : aiCheck env (searchText meta) = .ok true)
    (h6 : st.existing.contains meta.threadId = true)
    (h7 : findRowByKey st.sheet meta.threadId = some r)
    (h8 : deltaExtract env (mkDetails meta (attachFor env mid meta)) = .error ()) :
    processMessage env st mid = .ok (withSave st mid) := by
  simp [processMessage, not_mem_of_contains_false h1, h2, h3, h4, h5, mem_of_contains_true h6, h7, h8]

theorem pm_delta_none (r : Nat) (h1 : st.processed.contains mid = false)
    (h2 : env.metadata mid = some meta)
    (h3 : trustedSender meta.sender_email = true)
    (h4 : hasKeyword (searchText meta) = true)
    (h5 : aiCheck env (searchText meta) = .ok true)
    (h6 : st.existing.contains meta.threadId = true)
    (h7 : findRowByKey st.sheet meta.threadId = some r)
    (h8 : deltaExtract env (mkDetails meta (attachFor env mid meta)) = .ok none) :
    processMessage env st mid = .ok (withSave st mid) := by
  simp [processMessage, not_mem_of_contains_false h1, h2, h3, h4, h5, mem_of_contains_true h6, h7, h8]

theorem pm_merge_unchanged (r : Nat) (upd : Obj)
    (h1 : st.processed.contains mid = false)
    (h2 : env.metadata mid = some meta)
    (h3 : trustedSender meta.sender_email = true)
    (h4 : hasKeyword (searchText meta) = true)
    (h5 : aiCheck env (searchText meta) = .ok true)
    (h6 : st.existing.contains meta.threadId = true)
    (h7 : findRowByKey st.sheet meta.threadId = some r)
    (h8 : deltaExtract env (mkDetails meta (attachFor env mid meta)) = .ok (some upd))
    (h9 : (mergeFold (buildDict (st.sheet.getD 2 []) (rowValues st.sheet r)) upd
      (st.sheet.getD 2 []) r).changed = false) :
    processMessage env st mid = .ok (withSave st mid) := by
  simp only [List.getD_eq_getElem?_getD] at h9
  simp [processMessage, not_mem_of_contains_false h1, h2, h3, h4, h5, mem_of_contains_true h6, h7, h8, h9]

theorem pm_update_raise (r : Nat) (upd : Obj)
    (h1 : st.processed.contains mid = false)
    (h2 : env.metadata mid = some meta)
    (h3 : trustedSender meta.sender_email = true)
    (h4 : hasKeyword (searchText meta) = true)
    (h5 : aiCheck env (searchText meta) = .ok true)
    (h6 : st.existing.contains meta.threadId = true)
    (h7 : findRowByKey st.sheet meta.threadId = some r)
    (h8 : deltaExtract env (mkDetails meta (attachFor env mid meta)) = .ok (some upd))
    (h9 : (mergeFold (buildDict (st.sheet.getD 2 []) (rowValues st.sheet r)) upd
      (st.sheet.getD 2 []) r).changed = true)
    (h10 : env.updateFault r = true) :
    processMessage env st mid = .ok (withSave st mid) := by
  simp only [List.getD_eq_getElem?_getD] at h9
  simp [processMessage, not_mem_of_contains_false h1, h2, h3, h4, h5, mem_of_contains_true h6, h7, h8, h9, h10]

theorem pm_merge_write (r : Nat) (upd : Obj)
    (h1 : st.processed.contains mid = false)
    (h2 : env.metadata mid = some meta)
    (h3 : trustedSender meta.sender_email = true)
    (h4 : hasKeyword (searchText meta) = true)
    (h5 : aiCheck env (searchText meta) = .ok true)
    (h6 : st.existing.contains meta.threadId = true)
    (h7 : findRowByKey st.sheet meta.threadId = some r)
    (h8 : deltaExtract env (mkDetails meta (attachFor env mid meta)) = .ok (some upd))
    (h9 : (mergeFold (buildDict (st.sheet.getD 2 []) (rowValues st.sheet r)) upd
      (st.sheet.getD 2 []) r).changed = true)
    (h10 : env.updateFault r = false) :
    processMessage env st mid =
      .ok { sheet := updateRowA st.sheet r ((st.sheet.getD 2 []).map (fun h =>
              lookupD (mergeFold (buildDict (st.sheet.getD 2 []) (rowValues st.sheet r))
                upd (st.sheet.getD 2 []) r).merged h ""))
            processed := addId st.processed mid
            existing := st.existing
            newN := st.newN
            updN := st.updN ++ [(buildDict (st.sheet.getD 2 []) (rowValues st.sheet r),
              (mergeFold (buildDict (st.sheet.getD 2 []) (rowValues st.sheet r)) upd
                (st.sheet.getD 2 []) r).merged)]
            writes := st.writes ++ [.update r ((st.sheet.getD 2 []).map (fun h =>
              lookupD (mergeFold (buildDict (st.sheet.getD 2 []) (rowValues st.sheet r))
                upd (st.sheet.getD 2 []) r).merged h ""))] ++
              (if (mergeFold (buildDict (st.sheet.getD 2 []) (rowValues st.sheet r)) upd
                (st.sheet.getD 2 []) r).fmts.isEmpty then [] else
                [.fmt (mergeFold (buildDict (st.sheet.getD 2 []) (rowValues st.sheet r)) upd
                  (st.sheet.getD 2 []) r).fmts]) } := by
  simp only [List.getD_eq_getElem?_getD] at h9
  simp [processMessage, not_mem_of_contains_false h1, h2, h3, h4, h5, mem_of_contains_true h6, h7, h8, h9, h10]

theorem pm_extract_none (h1 : st.processed.contains mid = false)
    (h2 : env.metadata mid = some meta)
    (h3 : trustedSender meta.sender_email = true)
    (h4 : hasKeyword (searchText meta) = true)
    (h5 : aiCheck env (searchText meta) = .ok true)
    (h6 : st.existing.contains meta.threadId = false)
    (h7 : extractInitial env (mkDetails meta (attachFor env mid meta)) = none) :
    processMessage env st mid = .ok (withSave st mid) := by
  simp [processMessage, not_mem_of_contains_false h1, h2, h3, h4, h5, not_mem_of_contains_false h6, h7]

theorem pm_append_raise (data : Obj) (h1 : st.processed.contains mid = false)
    (h2 : env.metadata mid = some meta)
    (h3 : trustedSender meta.sender_email = true)
    (h4 : hasKeyword (searchText meta) = true)
    (h5 : aiCheck env (searchText meta) = .ok true)
    (h6 : st.existing.contains meta.threadId = false)
    (h7 : extractInitial env (mkDetails meta (attachFor env mid meta)) = some data)
    (h8 : env.appendFault (formatRow env meta.threadId
      (mkDetails meta (attachFor env mid meta)) data) = true) :
    processMessage env st mid = .error st := by
  simp [processMessage, not_mem_of_contains_false h1, h2, h3, h4, h5, not_mem_of_contains_false h6, h7, h8]

theorem pm_append_ok (data : Obj) (h1 : st.processed.contains mid = false)
    (h2 : env.metadata mid = some meta)
    (h3 : trustedSender meta.sender_email = true)
    (h4 : hasKeyword (searchText meta) = true)
    (h5 : aiCheck env (searchText meta) = .ok true)
    (h6 : st.existing.contains meta.threadId = false)
    (h7 : extractInitial env (mkDetails meta (attachFor env mid meta)) = some data)
    (h8 : env.appendFault (formatRow env meta.threadId
      (mkDetails meta (attachFor env mid meta)) data) = false) :
    processMessage env st mid =
      .ok { sheet := st.sheet ++
              [formatRow env meta.threadId (mkDetails meta (attachFor env mid meta)) data]
            processed := addId st.processed mid
            existing := addId st.existing meta.threadId
            newN := st.newN ++ [data]
            updN := st.updN
            writes := st.writes ++
              [.append (formatRow env meta.threadId
                (mkDetails meta (attachFor env mid meta)) data)] } := by
  simp [processMessage, not_mem_of_contains_false h1, h2, h3, h4, h5, not_mem_of_contains_false h6, h7, h8]

end PathEquations

/-- The path condition of the inconsistent-state tie-break: the message is
new, its metadata parses, it passes all three classifier stages, its thread
id is in the known set, and yet the row lookup finds no matching data row. -/
def hitsMissingRow (env : Env) (st : RunState) (mid : String) : Bool :=
  ¬ st.processed.contains mid &&
    (match env.metadata mid with
     | none => false
     | some meta =>
       trustedSender meta.sender_email && hasKeyword (searchText meta) &&
       (match aiCheck env (searchText meta) with
        | .ok true => true
        | _ => false) &&
       st.existing.contains meta.threadId &&
       (findRowByKey st.sheet meta.threadId).isNone)

/-- Claim C1 counterexample: a concrete message whose thread id is in the
known set while the sheet has no matching data row.  The iteration ends with
`continue` on the `if not cell` test, the state is returned unchanged, and
`save_processed_email` is never reached — the identifier is not recorded,
contradicting "the identifier is recorded as processed ... regardless of the
path outcome ... and the inconsistent-state case". -/
theorem missing_row_skips_save :
    processMessage
      { metadata := fun _ => some
          { msgId := "m1", threadId := "t1", sender_raw := "A <a@iitm.ac.in>",
            sender_email := "a@iitm.ac.in", subject := "internship", body := "",
            attachment_ids := [] }
        genCheck := fun _ => .ok "YES"
        attachText := fun _ => ""
        genInitial := fun _ => .error ()
        genDelta := fun _ => .error ()
        jp := fun _ => none
        appendFault := fun _ => false
        updateFault := fun _ => false
        timeStr := "t" }
      { sheet := [[], [], []], processed := [], existing := ["t1"],
        newN := [], updN := [], writes := [] }
      "m1" =
    .ok { sheet := [[], [], []], processed := [], existing := ["t1"],
          newN := [], updN := [], writes := [] } := rfl

/-- Claim C1 amended: for a message whose identifier is not already in the
skip-set, when the iteration completes normally the identifier has been
recorded on every path — metadata failure, any classifier rejection, both
new-record outcomes, and every merge-update outcome — except the
inconsistent-state case (thread id known but no row found), where the
iteration ends with `continue` before the save and leaves the state
untouched. -/
theorem id_recorded_amended (env : Env) (st : RunState) (mid : String)
    (st' : RunState)
    (hnew : st.processed.contains mid = false)
    (hok : processMessage env st mid = .ok st') :
    (hitsMissingRow env st mid = false → st'.processed.contains mid = true) ∧
    (hitsMissingRow env st mid = true → st' = st) := by
  unfold hitsMissingRow
  simp only [hnew, Bool.not_false, Bool.true_and, Bool.false_eq_true, not_false_iff]
  cases hmeta : env.metadata mid with
  | none =>
    rw [pm_meta_none env st mid hnew hmeta] at hok
    obtain rfl := Except.ok.inj hok
    exact ⟨fun _ => contains_withSave_self st mid, by simp⟩
  | some meta =>
    cases htr : trustedSender meta.sender_email with
    | false =>
      rw [pm_untrusted env st mid meta hnew hmeta htr] at hok
      obtain rfl := Except.ok.inj hok
      exact ⟨fun _ => contains_withSave_self st mid, by simp [htr]⟩
    | true =>
      cases hkw : hasKeyword (searchText meta) with
      | false =>
        rw [pm_nokeyword env st mid meta hnew hmeta htr hkw] at hok
        obtain rfl := Except.ok.inj hok
        exact ⟨fun _ => contains_withSave_self st mid, by simp [htr, hkw]⟩
      | true =>
        cases hai : aiCheck env (searchText meta) with
        | error e =>
          cases e
          rw [pm_ai_raise env st mid meta hnew hmeta htr hkw hai] at hok
          exact absurd hok (by simp)
        | ok b =>
          cases b with
          | false =>
            rw [pm_ai_no env st mid meta hnew hmeta htr hkw hai] at hok
            obtain rfl := Except.ok.inj hok
            exact ⟨fun _ => contains_withSave_self st mid, by simp [hai]⟩
          | true =>
            cases hex : st.existing.contains meta.threadId with
            | false =>
              refine ⟨fun _ => ?_, by simp [not_mem_of_contains_false hex]⟩
              cases hinit : extractInitial env (mkDetails meta (attachFor env mid meta)) with
              | none =>
                rw [pm_extract_none env st mid meta hnew hmeta htr hkw hai hex hinit] at hok
                obtain rfl := Except.ok.inj hok
                exact contains_withSave_self st mid
              | some data =>
                cases hfault : env.appendFault (formatRow env meta.threadId
                    (mkDetails meta (attachFor env mid meta)) data) with
                | true =>
                  rw [pm_append_raise env st mid meta data hnew hmeta htr hkw hai hex
                    hinit hfault] at hok
                  exact absurd hok (by simp)
                | false =>
                  rw [pm_append_ok env st mid meta data hnew hmeta htr hkw hai hex
                    hinit hfault] at hok
                  obtain rfl := Except.ok.inj hok
                  exact contains_addId_self st.processed mid
            | true =>
              cases hfind : findRowByKey st.sheet meta.threadId with
              | none =>
                rw [pm_missing_row env st mid meta hnew hmeta htr hkw hai hex hfind] at hok
                obtain rfl := Except.ok.inj hok
                refine ⟨fun habs => ?_, fun _ => rfl⟩
                exfalso
                simp [htr, hkw, hai, hex, hfind] at habs
                exact habs (mem_of_contains_true hex)
              | some r =>
                refine ⟨fun _ => ?_, fun habs => ?_⟩
                · cases hdelta : deltaExtract env (mkDetails meta (attachFor env mid meta)) with
                  | error e =>
                    cases e
                    rw [pm_delta_raise env st mid meta r hnew hmeta htr hkw hai hex
                      hfind hdelta] at hok
                    obtain rfl := Except.ok.inj hok
                    exact contains_withSave_self st mid
                  | ok o =>
                    cases o with
                    | none =>
                      rw [pm_delta_none env st mid meta r hnew hmeta htr hkw hai hex
                        hfind hdelta] at hok
                      obtain rfl := Except.ok.inj hok
                      exact contains_withSave_self st mid
                    | some upd =>
                      cases hch : (mergeFold (buildDict (st.sheet.getD 2 [])
                          (rowValues st.sheet r)) upd (st.sheet.getD 2 []) r).changed with
                      | false =>
                        rw [pm_merge_unchanged env st mid meta r upd hnew hmeta htr hkw
                          hai hex hfind hdelta hch] at hok
                        obtain rfl := Except.ok.inj hok
                        exact contains_withSave_self st mid
                      | true =>
                        cases hfault : env.updateFault r with
                        | true =>
                          rw [pm_update_raise env st mid meta r upd hnew hmeta htr hkw
                            hai hex hfind hdelta hch hfault] at hok
                          obtain rfl := Except.ok.inj hok
                          exact contains_withSave_self st mid
                        | false =>
                          rw [pm_merge_write env st mid meta r upd hnew hmeta htr hkw
                            hai hex hfind hdelta hch hfault] at hok
                          obtain rfl := Except.ok.inj hok
                          exact contains_addId_self st.processed mid
                · exfalso
                  simp [hfind] at habs

/-- Witness for the amended C1: a message rejected by the domain filter still
gets its identifier recorded. -/
theorem id_recorded_amended_witness :
    ((withSave
      { sheet := ([] : Sheet), processed := [], existing := [],
        newN := [], updN := [], writes := [] } "m9").processed.contains "m9") = true := by
  have h := id_recorded_amended
    { metadata := fun _ => some
        { msgId := "m9", threadId := "t9", sender_raw := "S <s@spam.com>",
          sender_email := "s@spam.com", subject := "internship", body := "",
          attachment_ids := [] }
      genCheck := fun _ => .ok "NO"
      attachText := fun _ => ""
      genInitial := fun _ => .error ()
      genDelta := fun _ => .error ()
      jp := fun _ => none
      appendFault := fun _ => false
      updateFault := fun _ => false
      timeStr := "t" }
    { sheet := ([] : Sheet), processed := [], existing := [],
      newN := [], updN := [], writes := [] }
    "m9" _ (by decide) rfl
  exact h.1 (by decide)

-- ------------------------------------------------------------------
-- Claim C10: at most one appended row per thread id per run
-- ------------------------------------------------------------------

/-- The thread keys (first cells) of the rows appended by a write log. -/
def appendedKeys (l : List WriteOp) : List String :=
  l.filterMap (fun w => match w with
    | .append row => some (row.headD "")
    | _ => none)

theorem appendedKeys_append (l1 l2 : List WriteOp) :
    appendedKeys (l1 ++ l2) = appendedKeys l1 ++ appendedKeys l2 :=
  List.filterMap_append l1 l2 _

theorem appendedKeys_update (r : Nat) (vals : List String) :
    appendedKeys [.update r vals] = [] := rfl

theorem appendedKeys_fmt_ite (c : Bool) (cells : List (Nat × Nat)) :
    appendedKeys (if c then ([] : List WriteOp) else [.fmt cells]) = [] := by
  cases c <;> rfl

theorem appendedKeys_append_single (row : List String) :
    appendedKeys [.append row] = [row.headD ""] := rfl

theorem formatRow_head (env : Env) (t : String) (d : EmailDetails) (data : Obj) :
    (formatRow env t d data).headD "" = t := rfl

theorem mem_addId_self (l : List String) (i : String) : i ∈ addId l i := by
  unfold addId
  split
  · next h => exact List.elem_iff.mp h
  · exact List.mem_append.mpr (Or.inr (by simp))

theorem mem_addId_of_mem {l : List String} {u : String} (i : String) (h : u ∈ l) :
    u ∈ addId l i := by
  unfold addId
  split
  · exact h
  · exact List.mem_append.mpr (Or.inl h)

/-- Invariant of the run relative to the starting known-thread set `S`: the
appended thread keys are distinct, each of them is in the current known set
but not in `S`, and `S` is contained in the current known set. -/
def AppendInv (S : List String) (st : RunState) : Prop :=
  (appendedKeys st.writes).Nodup ∧
  (∀ t ∈ appendedKeys st.writes, t ∈ st.existing ∧ t ∉ S) ∧
  (∀ t ∈ S, t ∈ st.existing)

theorem processMessage_appendInv (env : Env) (st : RunState) (mid : String)
    (S : List String) (h : AppendInv S st) :
    AppendInv S (runResult (processMessage env st mid)) := by
  cases hnew : st.processed.contains mid with
  | true => rw [pm_skip env st mid hnew]; exact h
  | false =>
  cases hmeta : env.metadata mid with
  | none => rw [pm_meta_none env st mid hnew hmeta]; exact h
  | some meta =>
  cases htr : trustedSender meta.sender_email with
  | false => rw [pm_untrusted env st mid meta hnew hmeta htr]; exact h
  | true =>
  cases hkw : hasKeyword (searchText meta) with
  | false => rw [pm_nokeyword env st mid meta hnew hmeta htr hkw]; exact h
  | true =>
  cases hai : aiCheck env (searchText meta) with
  | error e => cases e; rw [pm_ai_raise env st mid meta hnew hmeta htr hkw hai]; exact h
  | ok b =>
  cases b with
  | false => rw [pm_ai_no env st mid meta hnew hmeta htr hkw hai]; exact h
  | true =>
  cases hex : st.existing.contains meta.threadId with
  | true =>
    cases hfind : findRowByKey st.sheet meta.threadId with
    | none => rw [pm_missing_row env st mid meta hnew hmeta htr hkw hai hex hfind]; exact h
    | some r =>
    cases hdelta : deltaExtract env (mkDetails meta (attachFor env mid meta)) with
    | error e =>
      cases e
      rw [pm_delta_raise env st mid meta r hnew hmeta htr hkw hai hex hfind hdelta]
      exact h
    | ok o =>
    cases o with
    | none =>
      rw [pm_delta_none env st mid meta r hnew hmeta htr hkw hai hex hfind hdelta]
      exact h
    | some upd =>
    cases hch : (mergeFold (buildDict (st.sheet.getD 2 []) (rowValues st.sheet r)) upd
        (st.sheet.getD 2 []) r).changed with
    | false =>
      rw [pm_merge_unchanged env st mid meta r upd hnew hmeta htr hkw hai hex hfind
        hdelta hch]
      exact h
    | true =>
    cases hfault : env.updateFault r with
    | true =>
      rw [pm_update_raise env st mid meta r upd hnew hmeta htr hkw hai hex hfind
        hdelta hch hfault]
      exact h
    | false =>
      rw [pm_merge_write env st mid meta r upd hnew hmeta htr hkw hai hex hfind
        hdelta hch hfault]
      obtain ⟨hn, hm, hs⟩ := h
      simp only [runResult, AppendInv, appendedKeys_append, appendedKeys_update,
        appendedKeys_fmt_ite, List.append_nil]
      exact ⟨hn, hm, hs⟩
  | false =>
    cases hinit : extractInitial env (mkDetails meta (attachFor env mid meta)) with
    | none =>
      rw [pm_extract_none env st mid meta hnew hmeta htr hkw hai hex hinit]
      exact h
    | some data =>
    cases hfault : env.appendFault (formatRow env meta.threadId
        (mkDetails meta (attachFor env mid meta)) data) with
    | true =>
      rw [pm_append_raise env st mid meta data hnew hmeta htr hkw hai hex hinit hfault]
      exact h
    | false =>
      rw [pm_append_ok env st mid meta data hnew hmeta htr hkw hai hex hinit hfault]
      obtain ⟨hn, hm, hs⟩ := h
      have hnotex : meta.threadId ∉ st.existing := not_mem_of_contains_false hex
      simp only [runResult, AppendInv, appendedKeys_append, appendedKeys_append_single,
        formatRow_head]
      refine ⟨?_, ?_, ?_⟩
      · rw [List.nodup_append]
        refine ⟨hn, List.nodup_singleton _, ?_⟩
        intro u hu hu1
        rw [List.mem_singleton] at hu1
        subst hu1
        exact hnotex (hm _ hu).1
      · intro t ht
        rcases List.mem_append.mp ht with hold | hnewt
        · exact ⟨mem_addId_of_mem meta.threadId (hm t hold).1, (hm t hold).2⟩
        · rw [List.mem_singleton] at hnewt
          subst hnewt
          exact ⟨mem_addId_self st.existing meta.threadId,
            fun hts => hnotex (hs meta.threadId hts)⟩
      · intro t ht
        exact mem_addId_of_mem meta.threadId (hs t ht)

theorem runLoop_appendInv (env : Env) (msgs : List String) (st : RunState)
    (S : List String) (h : AppendInv S st) :
    AppendInv S (runResult (runLoop env msgs st)) := by
  induction msgs generalizing st with
  | nil => exact h
  | cons m rest ih =>
    have hstep := processMessage_appendInv env st m S h
    cases hp : processMessage env st m with
    | ok st' =>
      rw [hp] at hstep
      simp only [runLoop, hp]
      exact ih st' hstep
    | error st' =>
      rw [hp] at hstep
      simp only [runLoop, hp]
      exact hstep

/-- Claim C10: starting from an empty write log, a run appends at most one
row per thread id — the appended thread keys are pairwise distinct — and a
row is only ever appended for a thread id that was not in the known-thread
set when the run started (later messages of the same thread take the
merge-update path, because a successful append inserts the thread id into the
in-memory known set). -/
theorem one_append_per_thread (env : Env) (msgs : List String) (st0 : RunState)
    (h0 : st0.writes = []) :
    (appendedKeys (runResult (runLoop env msgs st0)).writes).Nodup ∧
    ∀ t ∈ appendedKeys (runResult (runLoop env msgs st0)).writes,
      t ∉ st0.existing := by
  have base : AppendInv st0.existing st0 := by
    refine ⟨?_, ?_, fun t ht => ht⟩
    · rw [h0]; exact List.nodup_nil
    · intro t ht
      rw [h0] at ht
      simp [appendedKeys] at ht
  have h := runLoop_appendInv env msgs st0 st0.existing base
  exact ⟨h.1, fun t ht => (h.2.1 t ht).2⟩

/-- Witness for C10 on a concrete one-message run. -/
theorem one_append_per_thread_witness :
    (appendedKeys (runResult (runLoop
      { metadata := fun _ => none, genCheck := fun _ => .ok "NO",
        attachText := fun _ => "", genInitial := fun _ => .error (),
        genDelta := fun _ => .error (), jp := fun _ => none,
        appendFault := fun _ => false, updateFault := fun _ => false,
        timeStr := "t" }
      ["m1"]
      { sheet := [], processed := [], existing := [], newN := [], updN := [],
        writes := [] })).writes).Nodup :=
  (one_append_per_thread _ ["m1"] _ rfl).1

-- ------------------------------------------------------------------
-- Claim C6: per-message error isolation
-- ------------------------------------------------------------------

/-- A trusted, keyword-matching email used by the C6 scenarios. -/
def c6Meta : EmailMeta :=
  { msgId := "m1", threadId := "t1", sender_raw := "A <a@iitm.ac.in>",
    sender_email := "a@iitm.ac.in", subject := "internship", body := "",
    attachment_ids := [] }

/-- Environment whose AI classifier call raises. -/
def c6EnvRaise : Env :=
  { metadata := fun _ => some c6Meta
    genCheck := fun _ => .error ()
    attachText := fun _ => ""
    genInitial := fun _ => .error ()
    genDelta := fun _ => .error ()
    jp := fun _ => none
    appendFault := fun _ => false
    updateFault := fun _ => false
    timeStr := "t" }

/-- Environment whose classifier accepts but whose delta model call raises. -/
def c6EnvDelta : Env :=
  { metadata := fun _ => some c6Meta
    genCheck := fun _ => .ok "YES"
    attachText := fun _ => ""
    genInitial := fun _ => .error ()
    genDelta := fun _ => .error ()
    jp := fun _ => none
    appendFault := fun _ => false
    updateFault := fun _ => false
    timeStr := "t" }

/-- Start state with empty known-thread set. -/
def c6StateEmpty : RunState :=
  { sheet := [[], [], []], processed := [], existing := [], newN := [],
    updN := [], writes := [] }

/-- Start state whose sheet has one data row for thread `t1`. -/
def c6StateRow : RunState :=
  { sheet := [[], [], [], ["t1"]], processed := [], existing := ["t1"],
    newN := [], updN := [], writes := [] }

/-- Claim C6 counterexample: the AI classifier call of the filter stage
(`is_opportunity_ai_check`, invoked on main.py line 529) sits outside any
handler, so a raised exception aborts the whole run: the loop does not
continue to the next message, and neither message id is recorded.  The same
holds for `worksheet.append_row` on line 633 (modelled by `appendFault`).
This contradicts "an exception anywhere in that message's per-message work
(the AI classifier call, extraction, merge computation, spreadsheet append or
update) is caught and logged and the loop continues". -/
theorem classifier_raise_aborts_run :
    runLoop c6EnvRaise ["m1", "m2"] c6StateEmpty = .error c6StateEmpty := rfl

/-- Claim C6 amended: exceptions inside the merge-update path are caught and
the loop continues (shown here for a raise from the delta model call and for
a raise from the spreadsheet row update; metadata fetch and the initial
extraction likewise fail soft, by their `Option` results), with the
identifier still recorded; mailbox listing failure yields an empty message
list and the run ends early with no message processed; but the stage-3 AI
classifier call and the new-record row append are made outside any handler,
so an exception there aborts the run (see the counterexample). -/
theorem per_message_isolation_amended (env : Env) (st : RunState)
    (mid : String) (meta : EmailMeta) (r : Nat) (rest : List String)
    (h1 : st.processed.contains mid = false)
    (h2 : env.metadata mid = some meta)
    (h3 : trustedSender meta.sender_email = true)
    (h4 : hasKeyword (searchText meta) = true)
    (h5 : aiCheck env (searchText meta) = .ok true)
    (h6 : st.existing.contains meta.threadId = true)
    (h7 : findRowByKey st.sheet meta.threadId = some r) :
    (deltaExtract env (mkDetails meta (attachFor env mid meta)) = .error () →
      runLoop env (mid :: rest) st = runLoop env rest (withSave st mid)) ∧
    (∀ upd, deltaExtract env (mkDetails meta (attachFor env mid meta)) = .ok (some upd) →
      (mergeFold (buildDict (st.sheet.getD 2 []) (rowValues st.sheet r)) upd
        (st.sheet.getD 2 []) r).changed = true →
      env.updateFault r = true →
      runLoop env (mid :: rest) st = runLoop env rest (withSave st mid)) ∧
    runMain env .httpError st.sheet st.processed = none := by
  refine ⟨?_, ?_, rfl⟩
  · intro h8
    simp only [runLoop, pm_delta_raise env st mid meta r h1 h2 h3 h4 h5 h6 h7 h8]
  · intro upd h8 h9 h10
    simp only [runLoop,
      pm_update_raise env st mid meta r upd h1 h2 h3 h4 h5 h6 h7 h8 h9 h10]

/-- Witness for the amended C6: a concrete run where the delta model call
raises, the id is still recorded and the loop moves on. -/
theorem per_message_isolation_amended_witness :
    runLoop c6EnvDelta ["m1"] c6StateRow = .ok (withSave c6StateRow "m1") :=
  (per_message_isolation_amended c6EnvDelta c6StateRow "m1" c6Meta 4 []
    rfl rfl (by decide) (by decide) rfl rfl rfl).1 rfl

-- ------------------------------------------------------------------
-- List lemmas for the idempotence proof (claim C2)
-- ------------------------------------------------------------------

theorem findIdxA_eq_none_iff {α : Type} (p : α → Bool) (l : List α) :
    findIdxA p l = none ↔ ∀ x ∈ l, p x = false := by
  induction l with
  | nil => simp [findIdxA]
  | cons a t ih =>
    cases hp : p a with
    | true => simp [findIdxA, hp]
    | false =>
      simp only [findIdxA, hp, Bool.false_eq_true, if_false, List.mem_cons,
        Option.map_eq_none']
      constructor
      · intro h x hx
        rcases hx with rfl | hx
        · exact hp
        · exact (ih.mp h) x hx
      · intro h
        exact ih.mpr (fun x hx => h x (Or.inr hx))

theorem findIdxA_lt_length {α : Type} {p : α → Bool} {l : List α} {i : Nat}
    (h : findIdxA p l = some i) : i < l.length := by
  induction l generalizing i with
  | nil => simp [findIdxA] at h
  | cons a t ih =>
    simp only [findIdxA] at h
    cases hp : p a with
    | true =>
      rw [hp] at h
      simp only [if_true] at h
      obtain rfl : (0 : Nat) = i := Option.some.inj h
      simp
    | false =>
      rw [hp] at h
      simp only [Bool.false_eq_true, if_false, Option.map_eq_some'] at h
      obtain ⟨j, hj, rfl⟩ := h
      have := ih hj
      simp only [List.length_cons]
      omega

theorem dropQ_set_of_le {α : Type} (l : List α) (n i : Nat) (a : α) (h : n ≤ i) :
    (l.set i a).drop n = (l.drop n).set (i - n) a := by
  induction n generalizing l i with
  | zero => simp
  | succ m ih =>
    cases l with
    | nil => simp
    | cons x xs =>
      cases i with
      | zero => exact absurd h (by omega)
      | succ j =>
        simp only [List.set_cons_succ, List.drop_succ_cons, Nat.succ_sub_succ]
        exact ih xs j (Nat.le_of_succ_le_succ h)

theorem getDQ_drop {α : Type} (l : List α) (n i : Nat) (d : α) :
    (l.drop n).getD i d = l.getD (n + i) d := by
  induction n generalizing l with
  | zero => simp
  | succ m ih =>
    cases l with
    | nil => simp
    | cons x xs =>
      simp only [List.drop_succ_cons]
      rw [ih xs]
      have he : m + 1 + i = (m + i) + 1 := by omega
      rw [he]
      rfl

theorem getDQ_set_ne {α : Type} (l : List α) (i j : Nat) (a d : α) (h : i ≠ j) :
    (l.set i a).getD j d = l.getD j d := by
  induction l generalizing i j with
  | nil => simp
  | cons x xs ih =>
    cases i with
    | zero =>
      cases j with
      | zero => omega
      | succ j2 => simp [List.set_cons_zero]
    | succ i2 =>
      cases j with
      | zero => simp [List.set_cons_succ]
      | succ j2 =>
        simp only [List.set_cons_succ]
        exact ih i2 j2 (by omega)

theorem getDQ_append_left {α : Type} (l1 l2 : List α) (i : Nat) (d : α)
    (h : i < l1.length) : (l1 ++ l2).getD i d = l1.getD i d := by
  induction l1 generalizing i with
  | nil => simp at h
  | cons x xs ih =>
    cases i with
    | zero => rfl
    | succ j =>
      simp only [List.cons_append]
      exact ih j (by simpa using Nat.lt_of_succ_lt_succ h)

theorem dropQ_append_of_le {α : Type} (l1 l2 : List α) (n : Nat)
    (h : n ≤ l1.length) : (l1 ++ l2).drop n = l1.drop n ++ l2 := by
  induction l1 generalizing n with
  | nil =>
    have : n = 0 := by simpa using h
    simp [this]
  | cons x xs ih =>
    cases n with
    | zero => simp
    | succ m =>
      simp only [List.cons_append, List.drop_succ_cons]
      exact ih m (by simpa using Nat.le_of_succ_le_succ h)

theorem findIdxA_set_of_pred_eq {α : Type} (p : α → Bool) (l : List α) (i : Nat)
    (v : α) (d : α) (hp : p v = p (l.getD i d)) :
    findIdxA p (l.set i v) = findIdxA p l := by
  induction l generalizing i with
  | nil => simp
  | cons x xs ih =>
    cases i with
    | zero =>
      simp only [List.getD_cons_zero] at hp
      simp only [List.set_cons_zero, findIdxA, hp]
    | succ j =>
      simp only [List.getD_cons_succ] at hp
      simp only [List.set_cons_succ, findIdxA]
      rw [ih j hp]

theorem headD_eq_getD_zero {α : Type} (l : List α) (d : α) :
    l.headD d = l.getD 0 d := by
  cases l <;> rfl

theorem dropQ_map {α β : Type} (f : α → β) (l : List α) (n : Nat) :
    (l.map f).drop n = (l.drop n).map f := by
  induction l generalizing n with
  | nil => simp
  | cons x xs ih =>
    cases n with
    | zero => simp
    | succ m =>
      simp only [List.map_cons, List.drop_succ_cons]
      exact ih m

theorem lookupA_eq_none_iff (l : Obj) (k : String) :
    lookupA l k = none ↔ k ∉ l.map Prod.fst := by
  induction l with
  | nil => simp [lookupA]
  | cons p t ih =>
    simp only [lookupA, List.map_cons, List.mem_cons]
    by_cases hp : p.1 = k
    · simp [hp]
    · simp only [if_neg hp, ih]
      constructor
      · intro h hc
        rcases hc with hc | hc
        · exact hp hc.symm
        · exact h hc
      · intro h hc
        exact h (Or.inr hc)

-- ------------------------------------------------------------------
-- Claim C2 helpers: structure of delta results and of the merged row
-- ------------------------------------------------------------------

theorem parseAiResponse_some {jp : String → Option Obj} {s : String} {o : Obj}
    (h : parseAiResponse jp s = some o) : ∃ s', jp s' = some o := by
  unfold parseAiResponse at h
  cases hf : findIdxC s.toList '\x7b' with
  | none => rw [hf] at h; simp at h
  | some i =>
    cases hr : rfindIdxC s.toList '\x7d' with
    | none => rw [hf, hr] at h; simp at h
    | some j =>
      rw [hf, hr] at h
      exact ⟨_, h⟩

theorem deltaExtract_some {env : Env} {d : EmailDetails} {o : Obj}
    (h : deltaExtract env d = .ok (some o)) : ∃ s', env.jp s' = some o := by
  unfold deltaExtract at h
  cases hg : env.genDelta d with
  | error e => rw [hg] at h; simp [Except.map] at h
  | ok resp =>
    rw [hg] at h
    simp only [Except.map] at h
    exact parseAiResponse_some (Except.ok.inj h)

theorem foldl_mergeStep_merged_nil (headers : List String) (row : Nat) :
    ∀ (upd : Obj) (acc : MergeAcc), acc.merged = [] →
      upd.foldl (mergeStep headers row) acc = acc := by
  intro upd
  induction upd with
  | nil => intro acc _; rfl
  | cons kv rest ih =>
    intro acc hm
    have hstep : mergeStep headers row acc kv = acc := by
      unfold mergeStep
      rw [if_neg]
      intro hc
      rw [hm] at hc
      simp [lookupA] at hc
    rw [List.foldl_cons, hstep]
    exact ih acc hm

theorem mergeFold_nil_changed (upd : Obj) (headers : List String) (row : Nat) :
    (mergeFold [] upd headers row).changed = false := by
  unfold mergeFold
  rw [foldl_mergeStep_merged_nil headers row upd ⟨[], false, []⟩ rfl]

theorem snd_mem_enumFrom {α : Type} :
    ∀ (l : List α) (n : Nat) (p : Nat × α), p ∈ List.enumFrom n l → p.2 ∈ l := by
  intro l
  induction l with
  | nil => intro n p h; simp [List.enumFrom] at h
  | cons x xs ih =>
    intro n p h
    simp only [List.enumFrom, List.mem_cons] at h
    rcases h with rfl | h
    · simp
    · exact List.mem_cons.mpr (Or.inr (ih (n + 1) p h))

theorem foldl_setA_lookup_preserve (vals : List String) (k : String) :
    ∀ (ps : List (Nat × String)) (acc : Obj), (∀ p ∈ ps, p.2 ≠ k) →
      lookupA (ps.foldl (fun d p => setA d p.2 (vals.getD p.1 "")) acc) k =
        lookupA acc k := by
  intro ps
  induction ps with
  | nil => intro acc _; rfl
  | cons q rest ih =>
    intro acc hne
    rw [List.foldl_cons, ih _ (fun p hp => hne p (List.mem_cons.mpr (Or.inr hp))),
      setA_lookup_ne acc (vals.getD q.1 "") (hne q (List.mem_cons.mpr (Or.inl rfl)))]

theorem buildDict_lookup_head (h0 : String) (hrest : List String)
    (vals : List String) (hnot : h0 ∉ hrest) :
    lookupA (buildDict (h0 :: hrest) vals) h0 = some (vals.getD 0 "") := by
  unfold buildDict
  have henum : (h0 :: hrest).enum = (0, h0) :: List.enumFrom 1 hrest := rfl
  rw [henum, List.foldl_cons,
    foldl_setA_lookup_preserve vals h0 (List.enumFrom 1 hrest) _
      (fun p hp he => hnot (he ▸ snd_mem_enumFrom hrest 1 p hp))]
  simp [setA, lookupA]

theorem mem_addId_cases {l : List String} {i u : String} (h : u ∈ addId l i) :
    u ∈ l ∨ u = i := by
  revert h
  unfold addId
  split
  · intro h; exact Or.inl h
  · intro h
    rcases List.mem_append.mp h with h1 | h2
    · exact Or.inl h1
    · right; simpa using h2

/-- The environmental regularity hypothesis of the idempotence theorem: the
JSON parse oracle never yields an object carrying the key-column header as a
key (model responses only use the prompt's field vocabulary, which does not
include the sheet's key column). -/
def jpSafe (env : Env) (k : String) : Prop :=
  ∀ s o, env.jp s = some o → lookupA o k = none

/-- Run invariant for idempotence: the header row is stable, there are at
least the three header rows, and every thread id of the in-memory known set
has a data row, so the cell-not-found `continue` is unreachable. -/
def goodState (hdr : List String) (st : RunState) : Prop :=
  st.sheet.getD 2 [] = hdr ∧ 3 ≤ st.sheet.length ∧
  ∀ t ∈ st.existing, findRowByKey st.sheet t ≠ none

theorem findRowByKey_bounds {s : Sheet} {t : String} {r : Nat}
    (h : findRowByKey s t = some r) : 4 ≤ r ∧ r - 1 < s.length := by
  unfold findRowByKey at h
  cases hfi : findIdxA (fun row => row.headD "" = t) (s.drop 3) with
  | none => rw [hfi] at h; simp at h
  | some i =>
    rw [hfi] at h
    simp only [Option.map_eq_some'] at h
    obtain ⟨j, hj, hjr⟩ := h
    obtain rfl : i = j := Option.some.inj hj
    subst hjr
    have hlt := findIdxA_lt_length hfi
    rw [List.length_drop] at hlt
    omega

/-- One loop iteration preserves the idempotence invariant, and (because the
cell-not-found branch is unreachable under it) always records the message
id. -/
theorem processMessage_good (env : Env) (hdr : List String) (st st' : RunState)
    (mid : String)
    (henv : jpSafe env (hdr.headD ""))
    (hnodup : hdr.Nodup)
    (hg : goodState hdr st)
    (hok : processMessage env st mid = .ok st') :
    goodState hdr st' ∧ (∀ u ∈ st.processed, u ∈ st'.processed) ∧
      mid ∈ st'.processed := by
  obtain ⟨hhdr, hlen, hfindall⟩ := hg
  cases hnew : st.processed.contains mid with
  | true =>
    rw [pm_skip env st mid hnew] at hok
    obtain rfl := Except.ok.inj hok
    exact ⟨⟨hhdr, hlen, hfindall⟩, fun u hu => hu, mem_of_contains_true hnew⟩
  | false =>
  cases hmeta : env.metadata mid with
  | none =>
    rw [pm_meta_none env st mid hnew hmeta] at hok
    obtain rfl := Except.ok.inj hok
    exact ⟨⟨hhdr, hlen, hfindall⟩, fun u hu => mem_addId_of_mem mid hu,
      mem_addId_self st.processed mid⟩
  | some meta =>
  cases htr : trustedSender meta.sender_email with
  | false =>
    rw [pm_untrusted env st mid meta hnew hmeta htr] at hok
    obtain rfl := Except.ok.inj hok
    exact ⟨⟨hhdr, hlen, hfindall⟩, fun u hu => mem_addId_of_mem mid hu,
      mem_addId_self st.processed mid⟩
  | true =>
  cases hkw : hasKeyword (searchText meta) with
  | false =>
    rw [pm_nokeyword env st mid meta hnew hmeta htr hkw] at hok
    obtain rfl := Except.ok.inj hok
    exact ⟨⟨hhdr, hlen, hfindall⟩, fun u hu => mem_addId_of_mem mid hu,
      mem_addId_self st.processed mid⟩
  | true =>
  cases hai : aiCheck env (searchText meta) with
  | error e =>
    cases e
    rw [pm_ai_raise env st mid meta hnew hmeta htr hkw hai] at hok
    exact absurd hok (by simp)
  | ok b =>
  cases b with
  | false =>
    rw [pm_ai_no env st mid meta hnew hmeta htr hkw hai] at hok
    obtain rfl := Except.ok.inj hok
    exact ⟨⟨hhdr, hlen, hfindall⟩, fun u hu => mem_addId_of_mem mid hu,
      mem_addId_self st.processed mid⟩
  | true =>
  cases hex : st.existing.contains meta.threadId with
  | true =>
    cases hfind : findRowByKey st.sheet meta.threadId with
    | none =>
      exact absurd hfind (hfindall meta.threadId (mem_of_contains_true hex))
    | some r =>
    cases hdelta : deltaExtract env (mkDetails meta (attachFor env mid meta)) with
    | error e =>
      cases e
      rw [pm_delta_raise env st mid meta r hnew hmeta htr hkw hai hex hfind hdelta] at hok
      obtain rfl := Except.ok.inj hok
      exact ⟨⟨hhdr, hlen, hfindall⟩, fun u hu => mem_addId_of_mem mid hu,
        mem_addId_self st.processed mid⟩
    | ok o =>
    cases o with
    | none =>
      rw [pm_delta_none env st mid meta r hnew hmeta htr hkw hai hex hfind hdelta] at hok
      obtain rfl := Except.ok.inj hok
      exact ⟨⟨hhdr, hlen, hfindall⟩, fun u hu => mem_addId_of_mem mid hu,
        mem_addId_self st.processed mid⟩
    | some upd =>
    cases hch : (mergeFold (buildDict (st.sheet.getD 2 []) (rowValues st.sheet r)) upd
        (st.sheet.getD 2 []) r).changed with
    | false =>
      rw [pm_merge_unchanged env st mid meta r upd hnew hmeta htr hkw hai hex hfind
        hdelta hch] at hok
      obtain rfl := Except.ok.inj hok
      exact ⟨⟨hhdr, hlen, hfindall⟩, fun u hu => mem_addId_of_mem mid hu,
        mem_addId_self st.processed mid⟩
    | true =>
    cases hfault : env.updateFault r with
    | true =>
      rw [pm_update_raise env st mid meta r upd hnew hmeta htr hkw hai hex hfind
        hdelta hch hfault] at hok
      obtain rfl := Except.ok.inj hok
      exact ⟨⟨hhdr, hlen, hfindall⟩, fun u hu => mem_addId_of_mem mid hu,
        mem_addId_self st.processed mid⟩
    | false =>
      rw [pm_merge_write env st mid meta r upd hnew hmeta htr hkw hai hex hfind
        hdelta hch hfault] at hok
      obtain rfl := Except.ok.inj hok
      obtain ⟨hr4, hrlen⟩ := findRowByKey_bounds hfind
      -- the header row cannot be empty when a change fired
      cases hh : hdr with
      | nil =>
        exfalso
        have hnilb : buildDict (st.sheet.getD 2 []) (rowValues st.sheet r) = [] := by
          rw [hhdr, hh]
          rfl
        rw [hnilb, mergeFold_nil_changed] at hch
        simp at hch
      | cons h0 hrest =>
        subst hh
        rw [hhdr] at hch ⊢
        -- the written row keeps its first cell
        have hupd0 : lookupA upd h0 = none := by
          obtain ⟨s', hjp'⟩ := deltaExtract_some hdelta
          exact henv s' upd hjp'
        have hnotkey : h0 ∉ upd.map Prod.fst := (lookupA_eq_none_iff upd h0).mp hupd0
        have hmerged : lookupA (mergeFold (buildDict (h0 :: hrest)
            (rowValues st.sheet r)) upd (h0 :: hrest) r).merged h0 =
            some ((rowValues st.sheet r).getD 0 "") := by
          unfold mergeFold
          rw [foldl_mergeStep_lookup_not (h0 :: hrest) r upd _ hnotkey]
          exact buildDict_lookup_head h0 hrest (rowValues st.sheet r)
            (List.nodup_cons.mp hnodup).1
        have hvals : (h0 :: hrest).map (fun h => lookupD (mergeFold
            (buildDict (h0 :: hrest) (rowValues st.sheet r)) upd (h0 :: hrest) r).merged
              h "") =
            ((rowValues st.sheet r).getD 0 "") :: hrest.map (fun h => lookupD (mergeFold
              (buildDict (h0 :: hrest) (rowValues st.sheet r)) upd (h0 :: hrest) r).merged
                h "") := by
          rw [List.map_cons]
          unfold lookupD
          rw [hmerged]
          rfl
        refine ⟨⟨?_, ?_, ?_⟩, fun u hu => mem_addId_of_mem mid hu,
          mem_addId_self st.processed mid⟩
        · show (updateRowA st.sheet r _).getD 2 [] = h0 :: hrest
          unfold updateRowA
          rw [getDQ_set_ne st.sheet (r - 1) 2 _ [] (by omega)]
          exact hhdr
        · show 3 ≤ (updateRowA st.sheet r _).length
          unfold updateRowA
          rw [List.length_set]
          exact hlen
        · intro t ht
          have hga : (st.sheet.drop 3).getD (r - 1 - 3) [] = st.sheet.getD (r - 1) [] := by
            rw [getDQ_drop]
            have he : 3 + (r - 1 - 3) = r - 1 := by omega
            rw [he]
          have hcomb : (((h0 :: hrest).map (fun h => lookupD (mergeFold
              (buildDict (h0 :: hrest) (rowValues st.sheet r)) upd (h0 :: hrest) r).merged
                h "")) ++ (st.sheet.getD (r - 1) []).drop ((h0 :: hrest).map (fun h =>
                lookupD (mergeFold (buildDict (h0 :: hrest) (rowValues st.sheet r)) upd
                  (h0 :: hrest) r).merged h "")).length).headD "" =
              (st.sheet.getD (r - 1) []).headD "" := by
            rw [hvals]
            simp only [List.cons_append, List.headD_cons]
            rw [headD_eq_getD_zero]
            rfl
          have hpres : findRowByKey (updateRowA st.sheet r ((h0 :: hrest).map (fun h =>
              lookupD (mergeFold (buildDict (h0 :: hrest) (rowValues st.sheet r)) upd
                (h0 :: hrest) r).merged h ""))) t = findRowByKey st.sheet t := by
            unfold findRowByKey updateRowA
            rw [dropQ_set_of_le st.sheet 3 (r - 1) _ (by omega)]
            rw [findIdxA_set_of_pred_eq _ (st.sheet.drop 3) (r - 1 - 3) _ []
              (by rw [hga, hcomb])]
          rw [hpres]
          exact hfindall t ht
  | false =>
    cases hinit : extractInitial env (mkDetails meta (attachFor env mid meta)) with
    | none =>
      rw [pm_extract_none env st mid meta hnew hmeta htr hkw hai hex hinit] at hok
      obtain rfl := Except.ok.inj hok
      exact ⟨⟨hhdr, hlen, hfindall⟩, fun u hu => mem_addId_of_mem mid hu,
        mem_addId_self st.processed mid⟩
    | some data =>
    cases hfault : env.appendFault (formatRow env meta.threadId
        (mkDetails meta (attachFor env mid meta)) data) with
    | true =>
      rw [pm_append_raise env st mid meta data hnew hmeta htr hkw hai hex hinit
        hfault] at hok
      exact absurd hok (by simp)
    | false =>
      rw [pm_append_ok env st mid meta data hnew hmeta htr hkw hai hex hinit
        hfault] at hok
      obtain rfl := Except.ok.inj hok
      refine ⟨⟨?_, ?_, ?_⟩, fun u hu => mem_addId_of_mem mid hu,
        mem_addId_self st.processed mid⟩
      · show (st.sheet ++ _).getD 2 [] = hdr
        rw [getDQ_append_left st.sheet _ 2 [] (by omega)]
        exact hhdr
      · show 3 ≤ (st.sheet ++ _).length
        rw [List.length_append]
        omega
      · intro t ht
        show findRowByKey (st.sheet ++ [formatRow env meta.threadId
          (mkDetails meta (attachFor env mid meta)) data]) t ≠ none
        intro hnone
        unfold findRowByKey at hnone
        rw [dropQ_append_of_le st.sheet _ 3 hlen] at hnone
        rw [Option.map_eq_none'] at hnone
        have hall := (findIdxA_eq_none_iff _ _).mp hnone
        rcases mem_addId_cases ht with hold | hnewt
        · -- an id already in the known set had a row before the append
          refine hfindall t hold ?_
          unfold findRowByKey
          rw [Option.map_eq_none']
          exact (findIdxA_eq_none_iff _ _).mpr
            (fun x hx => hall x (List.mem_append.mpr (Or.inl hx)))
        · -- the new thread id is the first cell of the appended row
          subst hnewt
          have hrowmem : formatRow env meta.threadId
              (mkDetails meta (attachFor env mid meta)) data ∈
              st.sheet.drop 3 ++ [formatRow env meta.threadId
                (mkDetails meta (attachFor env mid meta)) data] :=
            List.mem_append.mpr (Or.inr (by simp))
          have := hall _ hrowmem
          rw [formatRow_head] at this
          simp at this

theorem runLoop_good (env : Env) (hdr : List String) (msgs : List String)
    (st stf : RunState)
    (henv : jpSafe env (hdr.headD ""))
    (hnodup : hdr.Nodup)
    (hg : goodState hdr st)
    (hrun : runLoop env msgs st = .ok stf) :
    goodState hdr stf ∧ (∀ u ∈ st.processed, u ∈ stf.processed) ∧
      ∀ m ∈ msgs, m ∈ stf.processed := by
  induction msgs generalizing st with
  | nil =>
    obtain rfl := Except.ok.inj hrun
    exact ⟨hg, fun u hu => hu, by simp⟩
  | cons m rest ih =>
    simp only [runLoop] at hrun
    cases hp : processMessage env st m with
    | error st' =>
      rw [hp] at hrun
      exact absurd hrun (by simp)
    | ok st' =>
      rw [hp] at hrun
      obtain ⟨hg', hsub, hmem⟩ := processMessage_good env hdr st st' m henv hnodup hg hp
      obtain ⟨hgf, hsubf, hmemf⟩ := ih st' hg' hrun
      refine ⟨hgf, fun u hu => hsubf u (hsub u hu), ?_⟩
      intro x hx
      rcases List.mem_cons.mp hx with rfl | hx
      · exact hsubf x hmem
      · exact hmemf x hx

theorem runLoop_all_skip (env : Env) (msgs : List String) (st : RunState)
    (h : ∀ m ∈ msgs, st.processed.contains m = true) :
    runLoop env msgs st = .ok st := by
  induction msgs with
  | nil => rfl
  | cons m rest ih =>
    simp only [runLoop, pm_skip env st m (h m (List.mem_cons.mpr (Or.inl rfl)))]
    exact ih (fun x hx => h x (List.mem_cons.mpr (Or.inr hx)))

/-- Claim C2: if a run completes and the loop is immediately run again over
the same message list with the same oracle behaviour (no new mailbox content)
and the worksheet as the first run left it, the second run performs no
spreadsheet write at all — no appended row, no updated row, no formatted cell
— sends no notification, and leaves the durable store unchanged.
Environmental hypotheses: the JSON oracle never emits the key-column header
as a field (`jpSafe`, the prompt's field vocabulary excludes the key column),
the header row has distinct names, the sheet has its three header rows, and
every listed message id is younger than the retention window (they come from
a one-hour query window), so the between-run reload prunes none of them. -/
theorem second_run_is_noop (env : Env) (msgs : List String) (sheet0 : Sheet)
    (proc0 : List String) (now retentionDays : ℚ) (st1 : RunState)
    (hjp : jpSafe env ((sheet0.getD 2 []).headD ""))
    (hnodup : (sheet0.getD 2 []).Nodup)
    (hlen : 3 ≤ sheet0.length)
    (hage : ∀ m ∈ msgs, emailAgeDays m now < retentionDays)
    (h1 : runLoop env msgs (initState sheet0 proc0) = .ok st1) :
    runLoop env msgs
        (initState st1.sheet (loadFromList st1.processed now retentionDays)) =
      .ok (initState st1.sheet (loadFromList st1.processed now retentionDays)) ∧
    (initState st1.sheet (loadFromList st1.processed now retentionDays)).writes = [] ∧
    sendsNotification
      (initState st1.sheet (loadFromList st1.processed now retentionDays)) = false ∧
    (initState st1.sheet (loadFromList st1.processed now retentionDays)).sheet =
      st1.sheet := by
  have hg0 : goodState (sheet0.getD 2 []) (initState sheet0 proc0) := by
    refine ⟨rfl, hlen, ?_⟩
    intro t ht hnone
    unfold findRowByKey at hnone
    rw [Option.map_eq_none'] at hnone
    have hall := (findIdxA_eq_none_iff _ _).mp hnone
    have ht' : t ∈ (sheet0.drop 3).map (fun r => r.headD "") := by
      have hms : (initState sheet0 proc0).existing =
          (sheet0.map (fun r => r.headD "")).drop 3 := rfl
      rw [hms, dropQ_map] at ht
      exact ht
    obtain ⟨row, hrow, hhead⟩ := List.mem_map.mp ht'
    have hfalse := hall row hrow
    rw [hhead] at hfalse
    simp at hfalse
  obtain ⟨hg1, hsub1, hmem1⟩ := runLoop_good env (sheet0.getD 2 []) msgs _ st1
    hjp hnodup hg0 h1
  have hskip : ∀ m ∈ msgs,
      (initState st1.sheet
        (loadFromList st1.processed now retentionDays)).processed.contains m = true := by
    intro m hm
    apply List.elem_iff.mpr
    show m ∈ loadFromList st1.processed now retentionDays
    unfold loadFromList
    exact List.mem_filter.mpr ⟨hmem1 m hm, decide_eq_true (hage m hm)⟩
  exact ⟨runLoop_all_skip env msgs _ hskip, rfl, rfl, rfl⟩

/-- Environment of the C2 witness: metadata fetch fails for every message,
the JSON oracle parses nothing. -/
def c2Env : Env :=
  { metadata := fun _ => none
    genCheck := fun _ => .ok ""
    attachText := fun _ => ""
    genInitial := fun _ => .error ()
    genDelta := fun _ => .error ()
    jp := fun _ => none
    appendFault := fun _ => false
    updateFault := fun _ => false
    timeStr := "t" }

/-- Final state of the C2 witness's first run. -/
def c2St1 : RunState := withSave (initState [[], [], []] []) "zz"

/-- Witness for C2 on a concrete one-message mailbox: the second run is a
no-op. -/
theorem second_run_is_noop_witness :
    runLoop c2Env ["zz"] (initState c2St1.sheet (loadFromList c2St1.processed 0 7)) =
      .ok (initState c2St1.sheet (loadFromList c2St1.processed 0 7)) :=
  (second_run_is_noop c2Env ["zz"] [[], [], []] [] 0 7 c2St1
    (fun _ _ h => Option.noConfusion h) (by simp) (by decide) (by decide) rfl).1

end OppAgent
